import Mathlib

/-!
Verification development for the pytest-diff Rust core
(`src/rust/src/parser.rs`, `fingerprint.rs`, `database.rs`).

The Rust functions are shallowly embedded as executable Lean definitions.
External effects and external crates are modelled as explicit inputs:

* the RustPython parser (an external crate) is modelled by supplying the
  parsed statement list (`Stmt`) alongside the source text; statement line
  ranges mirror `rustpython_parser` locations, where the range of a
  function / class definition statement starts at the `def` / `class`
  keyword and decorators lie outside it (which is exactly why
  `extract_callable_block` consults `decorator_list` separately);
* file system reads, stats and the directory walk are modelled by oracle
  functions (`FileSystem`, walk lists);
* the BLAKE3 crate is modelled by a hash oracle;
* byte-level operations on lines are modelled on the character sequence
  of the line (the sources under consideration are ASCII, where the two
  coincide);
* `f64` time stamps are modelled as rationals.

CRC32 (the `crc32fast` crate) is implemented bit-for-bit, so checksums
evaluate to their real values.
-/

set_option maxRecDepth 40000

/-- One round of the reflected CRC-32 bit loop (polynomial 0xEDB88320). -/
def crc32Round (c : Nat) : Nat :=
  if c % 2 = 1 then (c / 2) ^^^ 0xEDB88320 else c / 2

/-- Fold one byte into the running CRC-32 state. -/
def crc32Byte (crc b : Nat) : Nat :=
  crc32Round^[8] (crc ^^^ b)

/-- CRC-32 (IEEE), as computed by the `crc32fast` crate, of a byte sequence. -/
def crc32 (bytes : List Nat) : Nat :=
  (bytes.foldl crc32Byte 0xFFFFFFFF) ^^^ 0xFFFFFFFF

/-- UTF-8 encoding of a character as a list of byte values. -/
def charUtf8 (c : Char) : List Nat :=
  let n := c.toNat
  if n < 0x80 then [n]
  else if n < 0x800 then [0xC0 ||| (n >>> 6), 0x80 ||| (n &&& 0x3F)]
  else if n < 0x10000 then
    [0xE0 ||| (n >>> 12), 0x80 ||| ((n >>> 6) &&& 0x3F), 0x80 ||| (n &&& 0x3F)]
  else
    [0xF0 ||| (n >>> 18), 0x80 ||| ((n >>> 12) &&& 0x3F),
     0x80 ||| ((n >>> 6) &&& 0x3F), 0x80 ||| (n &&& 0x3F)]

/-- UTF-8 bytes of a string. -/
def utf8Bytes (s : String) : List Nat :=
  s.data.flatMap charUtf8

/-- Reinterpret a 32-bit unsigned value as a signed 32-bit integer
(the `hasher.finalize() as i32` cast in `calculate_checksum`). -/
def toSigned32 (n : Nat) : Int :=
  if n < 0x80000000 then (n : Int) else (n : Int) - 0x100000000

/-- `calculate_checksum` (parser.rs): CRC32 of the UTF-8 bytes of a string,
returned as a signed 32-bit integer. -/
def calculate_checksum (source : String) : Int :=
  toSigned32 (crc32 (utf8Bytes source))

/-- Modelled from the spec (types.rs is absent from src): a `Block` is a
contiguous source region with name, kind, 1-indexed inclusive line range,
body start line and CRC32 checksum. -/
structure Block where
  name : String
  block_type : String
  start_line : Nat
  end_line : Nat
  body_start_line : Nat
  checksum : Int
deriving DecidableEq, Repr

/-- Modelled from the spec (types.rs is absent from src): a `Fingerprint`
records the state of one file. `mtime` (an `f64` in Rust) is modelled as a
rational number of seconds. -/
structure Fingerprint where
  filename : String
  checksums : List Int
  file_hash : String
  mtime : ℚ
  blocks : Option (List Block)
deriving DecidableEq, Repr

/-- Modelled from the spec (types.rs is absent from src): the result of
change detection. The Rust `HashMap` of changed blocks is modelled as an
association list. -/
structure ChangedFiles where
  modified : List String
  changed_blocks : List (String × List Int)
deriving DecidableEq, Repr

/-- Characters that are special to `strip_trailing_comment`, named to keep
source literals readable. -/
def chBackslash : Char := Char.ofNat 92

/-- Single-quote character. -/
def chSingleQuote : Char := Char.ofNat 39

/-- Double-quote character. -/
def chDoubleQuote : Char := Char.ofNat 34

/-- Hash (comment) character. -/
def chHash : Char := Char.ofNat 35

/-- Opening curly brace character. -/
def chOpenBrace : Char := Char.ofNat 123

/-- Closing curly brace character. -/
def chCloseBrace : Char := Char.ofNat 125

/-- ASCII whitespace test matching `char::is_whitespace` on the ASCII range
(space, tab, line feed, vertical tab, form feed, carriage return). -/
def rustIsWhitespace (c : Char) : Bool :=
  c == ' ' || c == Char.ofNat 9 || c == Char.ofNat 10 ||
    c == Char.ofNat 11 || c == Char.ofNat 12 || c == Char.ofNat 13

/-- `str::trim_end` on a character list: drop trailing whitespace. -/
def trimEndChars (l : List Char) : List Char :=
  (l.reverse.dropWhile rustIsWhitespace).reverse

/-- Split a character list at every occurrence of a separator character
(the semantics of `str::split(char)`). -/
def splitOnChar (sep : Char) : List Char → List (List Char)
  | [] => [[]]
  | c :: rest =>
    if c == sep then [] :: splitOnChar sep rest
    else
      match splitOnChar sep rest with
      | [] => [[c]]
      | h :: t => (c :: h) :: t

/-- `str::lines` semantics: split on a line feed, drop the final empty
segment produced by a trailing line feed, and strip one trailing carriage
return from each line. -/
def rustLines (s : String) : List String :=
  let parts := (splitOnChar (Char.ofNat 10) s.data).map String.mk
  let parts := if parts.getLast? = some "" then parts.dropLast else parts
  parts.map (fun l =>
    if l.data.getLast? = some (Char.ofNat 13) then String.mk l.data.dropLast else l)

/-- Scanner for `strip_trailing_comment` (parser.rs): walk the characters
tracking single- and double-quote string state with backslash escape
skipping; on the first `#` outside a string return the accumulated prefix
(in reverse). `none` means no comment terminator was found. -/
def stripCommentAux : List Char → Bool → Bool → List Char → Option (List Char)
  | [], _, _, _ => none
  | c :: rest, inS, inD, acc =>
    if c == chBackslash && (inS || inD) then
      match rest with
      | [] => none
      | c2 :: rest2 => stripCommentAux rest2 inS inD (c2 :: c :: acc)
    else if c == chSingleQuote && !inD then stripCommentAux rest (!inS) inD (c :: acc)
    else if c == chDoubleQuote && !inS then stripCommentAux rest inS (!inD) (c :: acc)
    else if c == chHash && !inS && !inD then some acc
    else stripCommentAux rest inS inD (c :: acc)

/-- `strip_trailing_comment` (parser.rs): the slice of the line before the
first `#` outside a string literal, right-trimmed; the whole line when no
such `#` exists. -/
def strip_trailing_comment (line : String) : String :=
  match stripCommentAux line.data false false [] with
  | some acc => String.mk (trimEndChars acc.reverse)
  | none => line

/-- Saturating decrement of an `i32` value, as `i32::saturating_sub(1)`. -/
def i32SatSub1 (x : Int) : Int := max (x - 1) (-2147483648)

/-- Depth-counter update for one character of a signature line
(`extract_signature_lines` interior loop). -/
def depthStep (d : Int × Int × Int) (c : Char) : Int × Int × Int :=
  let p := d.1
  let b := d.2.1
  let r := d.2.2
  if c == '(' then (p + 1, b, r)
  else if c == ')' then (i32SatSub1 p, b, r)
  else if c == '[' then (p, b + 1, r)
  else if c == ']' then (p, i32SatSub1 b, r)
  else if c == chOpenBrace then (p, b, r + 1)
  else if c == chCloseBrace then (p, b, i32SatSub1 r)
  else (p, b, r)

/-- Stop test of the `extract_signature_lines` loop: the comment-stripped,
right-trimmed line ends in a colon while all three updated depth counters
are zero. -/
def sigStop (line : String) (d2 : Int × Int × Int) : Bool :=
  ((strip_trailing_comment (String.mk (trimEndChars line.data))).data.getLast?
      == some (Char.ofNat 58)) &&
    d2.1 == 0 && d2.2.1 == 0 && d2.2.2 == 0

/-- Loop body of `extract_signature_lines`: push each line, update the
three depth counters over its characters, and stop after the first line
satisfying `sigStop`. -/
def sigGo : List String → Int × Int × Int → List String
  | [], _ => []
  | line :: rest, d =>
    if sigStop line (line.data.foldl depthStep d) then [line]
    else line :: sigGo rest (line.data.foldl depthStep d)

/-- `extract_signature_lines` (parser.rs): the signature lines of a
definition spanning 1-indexed lines `start..stop`, handling multi-line
signatures via depth counters. -/
def extract_signature_lines (source_lines : List String) (start stop : Nat) : List String :=
  let range_end := min stop source_lines.length
  sigGo ((source_lines.take range_end).drop (start - 1)) (0, 0, 0)

/-- `extract_source_lines` (parser.rs): the verbatim text of 1-indexed
inclusive lines `start..stop`, failing when `start` is out of range. -/
def extract_source_lines (source : String) (start stop : Nat) : Option String :=
  let lines := rustLines source
  if start < 1 || decide (lines.length < start) then none
  else some (String.intercalate "\n" ((lines.take (min stop lines.length)).drop (start - 1)))

/-- Python statements as produced by the external RustPython parser,
carrying exactly the data the extractor consults: 1-indexed line numbers
of statement ranges (which for `def` / `class` statements begin at the
keyword, with decorator line numbers listed separately), and nested
statement bodies. All statement kinds whose bodies the extractor does not
descend into are `otherStmt`. -/
inductive Stmt where
  | functionDef (name : String) (decoLines : List Nat) (defLine stopLine : Nat)
      (body : List Stmt)
  | asyncFunctionDef (name : String) (decoLines : List Nat) (defLine stopLine : Nat)
      (body : List Stmt)
  | classDef (name : String) (decoLines : List Nat) (defLine stopLine : Nat)
      (body : List Stmt)
  | ifStmt (startLine stopLine : Nat) (body orelse : List Stmt)
  | forStmt (startLine stopLine : Nat) (body orelse : List Stmt)
  | whileStmt (startLine stopLine : Nat) (body orelse : List Stmt)
  | withStmt (startLine stopLine : Nat) (body : List Stmt)
  | tryStmt (startLine stopLine : Nat) (body : List Stmt)
      (handlers : List (List Stmt)) (orelse finalbody : List Stmt)
  | otherStmt (startLine stopLine : Nat)

/-- Line of `stmt.start()`: the statement keyword line (decorators are
outside a definition statement's range in RustPython). -/
def Stmt.startL : Stmt → Nat
  | .functionDef _ _ d _ _ => d
  | .asyncFunctionDef _ _ d _ _ => d
  | .classDef _ _ d _ _ => d
  | .ifStmt s _ _ _ => s
  | .forStmt s _ _ _ => s
  | .whileStmt s _ _ _ => s
  | .withStmt s _ _ => s
  | .tryStmt s _ _ _ _ _ => s
  | .otherStmt s _ => s

/-- Line of `stmt.end()`. -/
def Stmt.endL : Stmt → Nat
  | .functionDef _ _ _ e _ => e
  | .asyncFunctionDef _ _ _ e _ => e
  | .classDef _ _ _ e _ => e
  | .ifStmt _ e _ _ => e
  | .forStmt _ e _ _ => e
  | .whileStmt _ e _ _ => e
  | .withStmt _ e _ => e
  | .tryStmt _ e _ _ _ _ => e
  | .otherStmt _ e => e

/-- Decorator start lines of a definition statement (empty otherwise). -/
def Stmt.decoList : Stmt → List Nat
  | .functionDef _ ds _ _ _ => ds
  | .asyncFunctionDef _ ds _ _ _ => ds
  | .classDef _ ds _ _ _ => ds
  | _ => []

/-- Whether the statement is a function, async-function or class
definition (the skeleton's signature-only cases). -/
def Stmt.isDefLike : Stmt → Bool
  | .functionDef _ _ _ _ _ => true
  | .asyncFunctionDef _ _ _ _ _ => true
  | .classDef _ _ _ _ _ => true
  | _ => false

/-- First line of the statement including decorators: the
`decorator_list.first()` fallback computation of `extract_callable_block`. -/
def Stmt.fullStart (s : Stmt) : Nat :=
  (s.decoList.head?).getD s.startL

/-- Direct child statements in the order the extractor visits them. -/
def Stmt.childSeq : Stmt → List Stmt
  | .functionDef _ _ _ _ body => body
  | .asyncFunctionDef _ _ _ _ body => body
  | .classDef _ _ _ _ body => body
  | .ifStmt _ _ body orelse => body ++ orelse
  | .forStmt _ _ body orelse => body ++ orelse
  | .whileStmt _ _ body orelse => body ++ orelse
  | .withStmt _ _ body => body
  | .tryStmt _ _ body handlers orelse finalbody =>
      body ++ handlers.flatten ++ orelse ++ finalbody
  | .otherStmt _ _ => []

/-- Parts of the module skeleton (`extract_module_skeleton` loop): for
definition statements the signature lines only, for every other statement
its verbatim source span; statements starting beyond the last line are
skipped. -/
def skeletonParts (source : String) (source_lines : List String) :
    List Stmt → Option (List String)
  | [] => some []
  | stmt :: rest =>
    if stmt.isDefLike then
      if stmt.startL ≤ source_lines.length then do
        let part := String.intercalate "\n"
          (extract_signature_lines source_lines stmt.startL stmt.endL)
        let others ← skeletonParts source source_lines rest
        pure (part :: others)
      else skeletonParts source source_lines rest
    else
      if stmt.startL ≤ source_lines.length then do
        let part ← extract_source_lines source stmt.startL stmt.endL
        let others ← skeletonParts source source_lines rest
        pure (part :: others)
      else skeletonParts source source_lines rest

/-- `extract_module_skeleton` (parser.rs): the module-level source with
function / async-function / class bodies elided down to signature lines. -/
def extract_module_skeleton (source : String) (parsed : List Stmt) : Option String := do
  let parts ← skeletonParts source (rustLines source) parsed
  pure (String.intercalate "\n" parts)

/-- Checksum text of a callable or class block: the verbatim span from the
first decorator line (when present) to the statement end. -/
def blockSpan (source : String) (decoLines : List Nat) (defLine stopLine : Nat) :
    Option String :=
  extract_source_lines source ((decoLines.head?).getD defLine) stopLine

mutual

/-- `extract_block_from_statement` (parser.rs): emit the block of a
function / async-function / class definition and recurse into statement
bodies to discover nested definitions. The shared `extract_callable_block`
helper of the source (start at the first decorator, checksum over the
verbatim span, `body_start_line` at the first body statement) is inlined
at its two call sites. -/
def extract_block_from_statement (source : String) : Stmt → Option (List Block)
  | .functionDef nm decos defLine stopLine body => do
      let start := (decos.head?).getD defLine
      let block_source ← extract_source_lines source start stopLine
      let checksum := calculate_checksum block_source
      let body_start_line := (body.head?.map Stmt.startL).getD defLine
      let nested ← extract_blocks_from_statements source body
      pure (⟨nm, "function", start, stopLine, body_start_line, checksum⟩ :: nested)
  | .asyncFunctionDef nm decos defLine stopLine body => do
      let start := (decos.head?).getD defLine
      let block_source ← extract_source_lines source start stopLine
      let checksum := calculate_checksum block_source
      let body_start_line := (body.head?.map Stmt.startL).getD defLine
      let nested ← extract_blocks_from_statements source body
      pure (⟨nm, "async_function", start, stopLine, body_start_line, checksum⟩ :: nested)
  | .classDef nm decos defLine stopLine body => do
      let start := (decos.head?).getD defLine
      let block_source ← extract_source_lines source start stopLine
      let checksum := calculate_checksum block_source
      let nested ← extract_blocks_from_statements source body
      pure (⟨nm, "class", start, stopLine, defLine, checksum⟩ :: nested)
  | .ifStmt _ _ body orelse => do
      let b1 ← extract_blocks_from_statements source body
      let b2 ← extract_blocks_from_statements source orelse
      pure (b1 ++ b2)
  | .forStmt _ _ body orelse => do
      let b1 ← extract_blocks_from_statements source body
      let b2 ← extract_blocks_from_statements source orelse
      pure (b1 ++ b2)
  | .whileStmt _ _ body orelse => do
      let b1 ← extract_blocks_from_statements source body
      let b2 ← extract_blocks_from_statements source orelse
      pure (b1 ++ b2)
  | .withStmt _ _ body => extract_blocks_from_statements source body
  | .tryStmt _ _ body handlers orelse finalbody => do
      let b1 ← extract_blocks_from_statements source body
      let b2 ← extract_blocks_from_handlers source handlers
      let b3 ← extract_blocks_from_statements source orelse
      let b4 ← extract_blocks_from_statements source finalbody
      pure (b1 ++ b2 ++ b3 ++ b4)
  | .otherStmt _ _ => pure []
termination_by structural stmt => stmt

/-- `extract_blocks_from_statements` (parser.rs): extraction over a
statement list, concatenating results in order. -/
def extract_blocks_from_statements (source : String) : List Stmt → Option (List Block)
  | [] => pure []
  | stmt :: rest => do
      let b1 ← extract_block_from_statement source stmt
      let b2 ← extract_blocks_from_statements source rest
      pure (b1 ++ b2)
termination_by structural l => l

/-- Loop over `try` exception handlers, extracting from each handler body. -/
def extract_blocks_from_handlers (source : String) : List (List Stmt) → Option (List Block)
  | [] => pure []
  | h :: rest => do
      let b1 ← extract_blocks_from_statements source h
      let b2 ← extract_blocks_from_handlers source rest
      pure (b1 ++ b2)
termination_by structural l => l

end

/-- `parse_module_internal` (parser.rs): the module block (checksummed over
the module skeleton, spanning lines 1 to the line count clamped to at
least 1) followed by all definition blocks in visit order. The parsed
statement list is an input because the RustPython parser is an external
dependency. -/
def parse_module_internal (source : String) (parsed : List Stmt) : Option (List Block) := do
  let module_skeleton ← extract_module_skeleton source parsed
  let module_checksum := calculate_checksum module_skeleton
  let line_count := (rustLines source).length
  let rest ← extract_blocks_from_statements source parsed
  pure (⟨"<module>", "module", 1, max line_count 1, 1, module_checksum⟩ :: rest)

/-- Modelled from the spec: the external dependencies of the fingerprint
pipeline — the RustPython parser (mapping file content to its parsed
statement list, `none` on a syntax error) and the BLAKE3 crate (mapping
content to its hex digest). -/
structure ExternalEnv where
  astOf : String → Option (List Stmt)
  blake3_hex : String → String

/-- Modelled from the spec: per-path results of the two file-system
effects the pipeline performs — `std::fs::read_to_string` and the mtime
obtained from `std::fs::metadata` (`none` models an I/O failure). -/
structure FileSystem where
  readResult : String → Option String
  mtimeResult : String → Option ℚ

/-- Python-level exception kinds raised by the pyfunction wrappers. -/
inductive PyErr where
  | ioError (msg : String)
  | syntaxError (msg : String)
  | runtimeError (msg : String)
deriving DecidableEq, Repr

/-- `parse_module` (parser.rs, pyfunction): wraps `parse_module_internal`,
surfacing any failure as a `SyntaxError`. -/
def parse_module (env : ExternalEnv) (source : String) : Except PyErr (List Block) :=
  match env.astOf source >>= parse_module_internal source with
  | none => .error (.syntaxError "Failed to parse Python code")
  | some blocks => .ok blocks

/-- Message text of a Python exception, as interpolated by `format!`. -/
def pyErrMsg : PyErr → String
  | .ioError m => m
  | .syntaxError m => m
  | .runtimeError m => m

/-- `calculate_fingerprint_internal` (fingerprint.rs): read the file,
BLAKE3-hash its content, parse it into blocks via `parse_module`, collect
per-block checksums, stat for the mtime, and assemble the `Fingerprint`.
Errors are `anyhow` messages. -/
def calculate_fingerprint_internal (env : ExternalEnv) (fs : FileSystem)
    (path : String) : Except String Fingerprint :=
  match fs.readResult path with
  | none => .error ("Failed to read file: " ++ path)
  | some content =>
    let file_hash := env.blake3_hex content
    match parse_module env content with
    | .error e => .error ("Failed to parse Python file: " ++ pyErrMsg e)
    | .ok blocks =>
      let checksums := blocks.map (fun b => b.checksum)
      match fs.mtimeResult path with
      | none => .error ("Failed to get metadata for: " ++ path)
      | some mtime =>
        .ok { filename := path, checksums := checksums, file_hash := file_hash,
              mtime := mtime, blocks := some blocks }

/-- `calculate_fingerprint` (fingerprint.rs, pyfunction): wraps the
internal computation, surfacing every failure — including parse
failures — as a Python `IOError`. -/
def calculate_fingerprint (env : ExternalEnv) (fs : FileSystem)
    (path : String) : Except PyErr Fingerprint :=
  match calculate_fingerprint_internal env fs path with
  | .error e => .error (.ioError ("Failed to calculate fingerprint: " ++ e))
  | .ok fp => .ok fp

/-- `find_changed_checksums` (fingerprint.rs): the old checksums that no
longer occur in the new checksum list. -/
def find_changed_checksums (old_checksums new_checksums : List Int) : List Int :=
  old_checksums.filter (fun checksum => !(new_checksums.contains checksum))

/-- `str::contains` substring test. -/
def rustContains (s pat : String) : Bool :=
  decide (List.IsInfix pat.data s.data)

/-- `path.rsplit(sep).next()`: the portion of the path after the last
slash (the whole string when no slash occurs). -/
def rustBasename (p : String) : String :=
  ((splitOnChar (Char.ofNat 47) p.data).map String.mk).getLastD p

/-- Normalized path components, mirroring `std::path::Components` on Unix
paths without `..`: empty and `.` segments are dropped and an absolute
path keeps a root marker. -/
def pathComponents (p : String) : List String :=
  let comps := ((splitOnChar (Char.ofNat 47) p.data).map String.mk).filter
    (fun c => c != "" && c != ".")
  if p.data.head? == some (Char.ofNat 47) then "/" :: comps else comps

/-- `Path::starts_with`: component-wise prefix test. -/
def pathStartsWith (p base : String) : Bool :=
  (pathComponents base).isPrefixOf (pathComponents p)

/-- `Path` equality: component-wise comparison. -/
def pathEq (a b : String) : Bool :=
  pathComponents a == pathComponents b

/-- `Path::extension`: the file-name text after its last dot, absent when
there is no dot or the only dot is leading. -/
def pathExtension (p : String) : Option String :=
  let name := rustBasename p
  let parts := (splitOnChar (Char.ofNat 46) name.data).map String.mk
  if parts.length == 1 then none
  else if parts.headD "" == "" && parts.length == 2 then none
  else parts.getLast?

/-- Test-file heuristic of `should_process_file` (fingerprint.rs): the
path contains a `tests` directory segment, or ends in `_test.py`, or its
basename starts with `test_`. -/
def is_test_file (path_str : String) : Bool :=
  rustContains path_str "/tests/" || ("_test.py".data.isSuffixOf path_str.data) ||
    ("test_".data.isPrefixOf (rustBasename path_str).data)

/-- `should_process_file` (fingerprint.rs): admit only `.py` files under
the project root and inside some scope path, rejecting test files other
than the current test file. `scope_paths` holds the already-canonicalized
scope prefixes (`scope_paths_abs` at the call site). -/
def should_process_file (filepath project_root test_file : String)
    (scope_paths : List String) : Bool :=
  if pathExtension filepath != some "py" then false
  else if !(project_root.data.isPrefixOf filepath.data) then false
  else if !(scope_paths.any (fun scope => pathStartsWith filepath scope)) then false
  else
    let is_current_test_file := pathEq filepath test_file
    !(is_test_file filepath && !is_current_test_file)

/-- `filter_executed_blocks_rust` (fingerprint.rs): keep the blocks for
which some line of the inclusive range `start_line..end_line` occurs in
the executed-line set. -/
def filter_executed_blocks_rust (blocks : List Block) (executed_lines : List Nat) :
    List Block :=
  blocks.filter (fun block =>
    (List.range' block.start_line (block.end_line + 1 - block.start_line)).any
      (fun line => executed_lines.contains line))

/-- Absolute value on the rationals modelling `f64::abs`. -/
def ratAbs (x : ℚ) : ℚ := if x < 0 then -x else x

/-- `check_file_changed` (fingerprint.rs): the three-tier cascade for one
file. `db` models `get_baseline_fingerprint_rust` (the SQLite layer is
absent from src). `.error` models the `anyhow` failures that
`detect_changes_internal` swallows. -/
def check_file_changed (env : ExternalEnv) (fs : FileSystem)
    (db : String → Option Fingerprint) (path : String) :
    Except Unit (Option (String × List Int)) :=
  let filename := path
  match db filename with
  | none => .ok none
  | some stored_fp =>
    match fs.mtimeResult path with
    | none => .error ()
    | some current_mtime =>
      if ratAbs (current_mtime - stored_fp.mtime) < 1/1000 then .ok none
      else
        match fs.readResult path with
        | none => .error ()
        | some content =>
          let current_hash := env.blake3_hex content
          if current_hash == stored_fp.file_hash then .ok none
          else
            match env.astOf content >>= parse_module_internal content with
            | none => .error ()
            | some current_blocks =>
              let current_checksums := current_blocks.map (fun b => b.checksum)
              if current_checksums == stored_fp.checksums then .ok none
              else .ok (some (filename,
                find_changed_checksums stored_fp.checksums current_checksums))

/-- `find_python_files` (fingerprint.rs): filter the entries yielded by
the (external) directory walk down to `.py` files lying under some scope
path. `walk` is the pruned walk output, `isFileEntry` models
`path.is_file()` and `canon` models `std::fs::canonicalize` with its
identity fallback. -/
def find_python_files (walk : List String) (isFileEntry : String → Bool)
    (canon : String → String) (scope_paths : List String) : List String :=
  let scope_paths_abs := scope_paths.map canon
  walk.filterMap (fun path =>
    if isFileEntry path && (pathExtension path == some "py") then
      let abs_path := if path.data.head? == some (Char.ofNat 47) then path
        else canon path
      if scope_paths_abs.any (fun scope => pathStartsWith abs_path scope) then
        some abs_path
      else none
    else none)

/-- `detect_changes_internal` (fingerprint.rs): run the cascade over every
project file, swallowing per-file failures, and assemble the modified
list and the per-file changed-block sets. -/
def detect_changes_internal (env : ExternalEnv) (fs : FileSystem)
    (db : String → Option Fingerprint) (walk : List String)
    (isFileEntry : String → Bool) (canon : String → String)
    (scope_paths : List String) : ChangedFiles :=
  let python_files := find_python_files walk isFileEntry canon scope_paths
  let changed_entries := python_files.filterMap (fun path =>
    match check_file_changed env fs db path with
    | .ok (some change) => some change
    | _ => none)
  { modified := changed_entries.map (fun e => e.1),
    changed_blocks := changed_entries.filter (fun e => !e.2.isEmpty) }

/-- Modelled from the spec: `save_baseline_fingerprints_batch` upserts all
rows in one transaction and returns the number written (the SQLite layer
is absent from src). -/
def save_baseline_fingerprints_batch (fps : List Fingerprint) : Nat :=
  fps.length

/-- `save_baseline_internal` (fingerprint.rs): fingerprint every project
file, drop the failures, and batch-write the rest, returning the count. -/
def save_baseline_internal (env : ExternalEnv) (fs : FileSystem)
    (walk : List String) (isFileEntry : String → Bool) (canon : String → String)
    (scope_paths : List String) : Nat :=
  let python_files := find_python_files walk isFileEntry canon scope_paths
  let fingerprints := python_files.map (fun p => calculate_fingerprint_internal env fs p)
  let valid_fingerprints := fingerprints.filterMap (fun r =>
    match r with
    | .ok fp => some fp
    | .error _ => none)
  save_baseline_fingerprints_batch valid_fingerprints

/-- `process_coverage_data_internal` (fingerprint.rs): admission filter,
fingerprint (via the cache-or-calculate oracle `fpOracle`), block
filtering against executed lines, and reduction to a checksums-only
fingerprint. Files with no executed block are dropped. -/
def process_coverage_data_internal (fpOracle : String → Option Fingerprint)
    (coverage_data : List (String × List Nat))
    (project_root test_file : String) (scope_paths : List String) :
    List Fingerprint :=
  coverage_data.filterMap (fun entry =>
    let filename := entry.1
    let executed_lines := entry.2
    if !(should_process_file filename project_root test_file scope_paths) then none
    else
      match fpOracle filename with
      | none => none
      | some fp =>
        match fp.blocks with
        | none => some fp
        | some blocks =>
          let executed_blocks := filter_executed_blocks_rust blocks executed_lines
          if executed_blocks.isEmpty then none
          else some { filename := fp.filename,
                      checksums := executed_blocks.map (fun b => b.checksum),
                      file_hash := fp.file_hash, mtime := fp.mtime,
                      blocks := none })

/-- `TestmonDatabase` (database.rs): the struct as present in src — a
stored path and stubbed methods. -/
structure TestmonDatabase where
  db_path : String

/-- `get_affected_tests` (database.rs): the method body as present in src
is a `TODO` stub that returns the empty list for every query. -/
def TestmonDatabase.get_affected_tests (_db : TestmonDatabase)
    (_changed_blocks : List (String × List Int)) : List String :=
  []

/-- Consecutive ordering of sibling statements: each ends strictly before
the next begins (decorators included) — the source-order invariant of a
parsed suite. -/
def listOrderedB : List Stmt → Bool
  | [] => true
  | [_] => true
  | a :: b :: rest => decide (a.endL < b.fullStart) && listOrderedB (b :: rest)

/-- Local sanity of one parsed statement node: positive ordered line
range, decorators on or before the keyword line, children inside the
statement's range and in source order. -/
def Stmt.nodeOk (s : Stmt) : Bool :=
  decide (1 ≤ s.startL) && decide (s.startL ≤ s.endL) &&
  s.decoList.all (fun d => decide (1 ≤ d) && decide (d ≤ s.startL)) &&
  s.childSeq.all (fun c => decide (s.startL ≤ c.fullStart) && decide (c.endL ≤ s.endL)) &&
  listOrderedB s.childSeq

mutual

/-- Recursive well-formedness of a parsed statement: every node of the
subtree satisfies `nodeOk`. -/
def Stmt.wfB : Stmt → Bool
  | .functionDef nm ds dl el body =>
      (Stmt.functionDef nm ds dl el body).nodeOk && wfListB body
  | .asyncFunctionDef nm ds dl el body =>
      (Stmt.asyncFunctionDef nm ds dl el body).nodeOk && wfListB body
  | .classDef nm ds dl el body =>
      (Stmt.classDef nm ds dl el body).nodeOk && wfListB body
  | .ifStmt s0 e0 body orelse =>
      (Stmt.ifStmt s0 e0 body orelse).nodeOk && (wfListB body && wfListB orelse)
  | .forStmt s0 e0 body orelse =>
      (Stmt.forStmt s0 e0 body orelse).nodeOk && (wfListB body && wfListB orelse)
  | .whileStmt s0 e0 body orelse =>
      (Stmt.whileStmt s0 e0 body orelse).nodeOk && (wfListB body && wfListB orelse)
  | .withStmt s0 e0 body =>
      (Stmt.withStmt s0 e0 body).nodeOk && wfListB body
  | .tryStmt s0 e0 body handlers orelse finalbody =>
      (Stmt.tryStmt s0 e0 body handlers orelse finalbody).nodeOk &&
        (wfListB body && wfHandlersB handlers && wfListB orelse && wfListB finalbody)
  | .otherStmt s0 e0 => (Stmt.otherStmt s0 e0).nodeOk
termination_by structural s => s

/-- Well-formedness of every statement in a list. -/
def wfListB : List Stmt → Bool
  | [] => true
  | s :: rest => Stmt.wfB s && wfListB rest
termination_by structural l => l

/-- Well-formedness of every statement in every handler body. -/
def wfHandlersB : List (List Stmt) → Bool
  | [] => true
  | h :: rest => wfListB h && wfHandlersB rest
termination_by structural l => l

end

/-- Well-formedness of a parsed module suite relative to the file's line
count: every top-level statement is well formed and ends within the file,
and the suite is in source order. -/
def topLevelWFB (lineCount : Nat) (stmts : List Stmt) : Bool :=
  stmts.all (fun s => s.wfB && decide (s.endL ≤ lineCount)) && listOrderedB stmts

/-- Line number of the last signature line the skeleton keeps for a
definition statement. -/
def sigEndLine (source_lines : List String) (d : Stmt) : Nat :=
  d.startL - 1 + (extract_signature_lines source_lines d.startL d.endL).length

/-- The edited line `i` (0-indexed) lies strictly inside the body of some
top-level definition statement: after the last signature line the
skeleton keeps, and no later than the statement's end line. -/
def DiffInsideDefBody (lines : List String) (stmts : List Stmt) (i : Nat) : Prop :=
  ∃ d ∈ stmts, d.isDefLike = true ∧ sigEndLine lines d < i + 1 ∧ i + 1 ≤ d.endL

instance (lines : List String) (stmts : List Stmt) (i : Nat) :
    Decidable (DiffInsideDefBody lines stmts i) := by
  unfold DiffInsideDefBody
  infer_instance

/-- Invariant package for a list of emitted blocks: each block's line
numbers are ordered and fall in `[lo, hi]`, and start lines are
non-decreasing along the list. -/
def BlocksOK (lo hi : Nat) (bs : List Block) : Prop :=
  (∀ b ∈ bs, b.start_line ≤ b.body_start_line ∧ b.body_start_line ≤ b.end_line ∧
      lo ≤ b.start_line ∧ b.start_line ≤ hi) ∧
  bs.Pairwise (fun a b => a.start_line ≤ b.start_line)

def c1Src : String := "@login_required\ndef get_data():\n    return []\n"

def c1Ast : List Stmt := [Stmt.functionDef "get_data" [1] 2 3 [Stmt.otherStmt 3 3]]

def c1Blocks : List Block :=
  [⟨"<module>", "module", 1, 3, 1, calculate_checksum "def get_data():"⟩,
   ⟨"get_data", "function", 1, 3, 3,
     calculate_checksum "@login_required\ndef get_data():\n    return []"⟩]

def c1Fp : Fingerprint :=
  ⟨"/proj/app.py", c1Blocks.map (fun b => b.checksum), "hash0", 0, some c1Blocks⟩

def c2SrcA : String := "def f():\n    pass\n"

def c2AstA : List Stmt := [Stmt.functionDef "f" [] 1 2 [Stmt.otherStmt 2 2]]

def c2SrcB : String := "@deco\ndef f():\n    pass\n"

def c2AstB : List Stmt := [Stmt.functionDef "f" [1] 2 3 [Stmt.otherStmt 3 3]]

def c3SrcA : String := "def f():\n    return 1\n"

def c3SrcB : String := "def f():\n    return 2\n"

def c3Ast : List Stmt := [Stmt.functionDef "f" [] 1 2 [Stmt.otherStmt 2 2]]

def c9Src : String := "def add(a, b):\n    return a + b\n"

def c9Ast : List Stmt := [Stmt.functionDef "add" [] 1 2 [Stmt.otherStmt 2 2]]

def c7Env : ExternalEnv := ⟨fun _ => none, fun _ => "deadbeef"⟩

def c7Fs : FileSystem := ⟨fun _ => some "def foo(", fun _ => some 0⟩

def c7EnvOk : ExternalEnv := ⟨fun _ => some [Stmt.otherStmt 1 1], fun _ => "h77"⟩

def c7FsOk : FileSystem := ⟨fun _ => some "x = 1\n", fun _ => some 5⟩

def c8Oracle : String → Option Fingerprint :=
  fun p => some ⟨p, [], "h8", 0, none⟩

def c5Stored : Fingerprint := ⟨"/p/a.py", [999], "oldh", 0, none⟩

def c5Env : ExternalEnv := ⟨fun _ => some [Stmt.otherStmt 1 1], fun _ => "newh"⟩

def c5Fs : FileSystem := ⟨fun _ => some "x = 1\n", fun _ => some 1⟩

def c5Db : String → Option Fingerprint := fun _ => some c5Stored

def c4Walk : List String := ["/p/a.py"]

def c4IsFile : String → Bool := fun _ => true

def c4Canon : String → String := fun s => s

/-- All statements of a flattened handler list are smaller than the
handler list. -/
theorem sizeOf_lt_of_mem_flatten {c : Stmt} {hs : List (List Stmt)}
    (h : c ∈ hs.flatten) : sizeOf c < sizeOf hs := by
  rcases List.mem_flatten.mp h with ⟨l, hl, hc⟩
  have h1 := List.sizeOf_lt_of_mem hc
  have h2 := List.sizeOf_lt_of_mem hl
  omega

/-- Direct children are structurally smaller than their parent. -/
theorem childSeq_sizeOf {c s : Stmt} (h : c ∈ s.childSeq) : sizeOf c < sizeOf s := by
  cases s with
  | functionDef nm ds dl el body =>
      simp only [Stmt.childSeq] at h
      have := List.sizeOf_lt_of_mem h
      simp only [Stmt.functionDef.sizeOf_spec]; omega
  | asyncFunctionDef nm ds dl el body =>
      simp only [Stmt.childSeq] at h
      have := List.sizeOf_lt_of_mem h
      simp only [Stmt.asyncFunctionDef.sizeOf_spec]; omega
  | classDef nm ds dl el body =>
      simp only [Stmt.childSeq] at h
      have := List.sizeOf_lt_of_mem h
      simp only [Stmt.classDef.sizeOf_spec]; omega
  | ifStmt s e body orelse =>
      simp only [Stmt.childSeq] at h
      rcases List.mem_append.mp h with h1 | h1 <;>
        have := List.sizeOf_lt_of_mem h1 <;>
        simp only [Stmt.ifStmt.sizeOf_spec] <;> omega
  | forStmt s e body orelse =>
      simp only [Stmt.childSeq] at h
      rcases List.mem_append.mp h with h1 | h1 <;>
        have := List.sizeOf_lt_of_mem h1 <;>
        simp only [Stmt.forStmt.sizeOf_spec] <;> omega
  | whileStmt s e body orelse =>
      simp only [Stmt.childSeq] at h
      rcases List.mem_append.mp h with h1 | h1 <;>
        have := List.sizeOf_lt_of_mem h1 <;>
        simp only [Stmt.whileStmt.sizeOf_spec] <;> omega
  | withStmt s e body =>
      simp only [Stmt.childSeq] at h
      have := List.sizeOf_lt_of_mem h
      simp only [Stmt.withStmt.sizeOf_spec]; omega
  | tryStmt s e body handlers orelse finalbody =>
      simp only [Stmt.childSeq] at h
      rcases List.mem_append.mp h with h1 | h1
      · rcases List.mem_append.mp h1 with h2 | h2
        · rcases List.mem_append.mp h2 with h3 | h3
          · have := List.sizeOf_lt_of_mem h3
            simp only [Stmt.tryStmt.sizeOf_spec]; omega
          · have := sizeOf_lt_of_mem_flatten h3
            simp only [Stmt.tryStmt.sizeOf_spec]; omega
        · have := List.sizeOf_lt_of_mem h2
          simp only [Stmt.tryStmt.sizeOf_spec]; omega
      · have := List.sizeOf_lt_of_mem h1
        simp only [Stmt.tryStmt.sizeOf_spec]; omega
  | otherStmt s e =>
      simp only [Stmt.childSeq, List.not_mem_nil] at h

theorem sigGo_length_le (xs : List String) (d : Int × Int × Int) :
    (sigGo xs d).length ≤ xs.length := by
  induction xs generalizing d with
  | nil => simp [sigGo]
  | cons x xs ih =>
    simp only [sigGo]
    split
    · simp
    · simpa using ih (x.data.foldl depthStep d)

theorem sigGo_congr (xs : List String) : ∀ (ys : List String) (d : Int × Int × Int),
    xs.length = ys.length →
    (∀ j, j < (sigGo xs d).length → xs[j]? = ys[j]?) →
    sigGo xs d = sigGo ys d := by
  induction xs with
  | nil =>
    intro ys d hlen _
    cases ys with
    | nil => rfl
    | cons y ys => simp at hlen
  | cons x xs ih =>
    intro ys d hlen hagree
    cases ys with
    | nil => simp at hlen
    | cons y ys =>
      have h0 : 0 < (sigGo (x :: xs) d).length := by
        simp only [sigGo]; split <;> simp
      have hxy : x = y := by
        have h := hagree 0 h0
        simpa using h
      subst hxy
      simp only [sigGo]
      by_cases hstop : sigStop x (x.data.foldl depthStep d) = true
      · simp [hstop]
      · simp only [hstop, Bool.false_eq_true, if_false]
        congr 1
        apply ih
        · simpa using hlen
        · intro j hj
          have h := hagree (j + 1) (by
            simp only [sigGo, hstop, Bool.false_eq_true, if_false, List.length_cons]
            omega)
          simpa using h

theorem slice_getElem (l : List String) (a b j : Nat) :
    ((l.take a).drop b)[j]? = if b + j < a then l[b + j]? else none := by
  rw [List.getElem?_drop]
  by_cases h : b + j < a
  · rw [List.getElem?_take_of_lt h, if_pos h]
  · rw [if_neg h]
    apply List.getElem?_eq_none
    simp only [List.length_take]
    omega

theorem wfB_nodeOk {s : Stmt} (h : s.wfB = true) : s.nodeOk = true := by
  cases s <;> rw [Stmt.wfB] at h <;>
    first
    | exact Bool.and_elim_left h
    | exact h

theorem wfListB_mem {l : List Stmt} {c : Stmt} (h : wfListB l = true) (hc : c ∈ l) :
    c.wfB = true := by
  induction l with
  | nil => cases hc
  | cons s rest ih =>
    rw [wfListB] at h
    rcases List.mem_cons.mp hc with rfl | hm
    · exact Bool.and_elim_left h
    · exact ih (Bool.and_elim_right h) hm

theorem wfHandlersB_mem {hs : List (List Stmt)} {l : List Stmt}
    (h : wfHandlersB hs = true) (hl : l ∈ hs) : wfListB l = true := by
  induction hs with
  | nil => cases hl
  | cons h0 rest ih =>
    rw [wfHandlersB] at h
    rcases List.mem_cons.mp hl with rfl | hm
    · exact Bool.and_elim_left h
    · exact ih (Bool.and_elim_right h) hm

theorem wfB_child {s c : Stmt} (h : s.wfB = true) (hc : c ∈ s.childSeq) :
    c.wfB = true := by
  cases s with
  | functionDef nm ds dl el body =>
    rw [Stmt.wfB] at h
    exact wfListB_mem (Bool.and_elim_right h) hc
  | asyncFunctionDef nm ds dl el body =>
    rw [Stmt.wfB] at h
    exact wfListB_mem (Bool.and_elim_right h) hc
  | classDef nm ds dl el body =>
    rw [Stmt.wfB] at h
    exact wfListB_mem (Bool.and_elim_right h) hc
  | ifStmt s0 e0 body orelse =>
    rw [Stmt.wfB] at h
    have h2 := Bool.and_elim_right h
    have hc2 : c ∈ body ++ orelse := hc
    rcases List.mem_append.mp hc2 with hm | hm
    · exact wfListB_mem (Bool.and_elim_left h2) hm
    · exact wfListB_mem (Bool.and_elim_right h2) hm
  | forStmt s0 e0 body orelse =>
    rw [Stmt.wfB] at h
    have h2 := Bool.and_elim_right h
    have hc2 : c ∈ body ++ orelse := hc
    rcases List.mem_append.mp hc2 with hm | hm
    · exact wfListB_mem (Bool.and_elim_left h2) hm
    · exact wfListB_mem (Bool.and_elim_right h2) hm
  | whileStmt s0 e0 body orelse =>
    rw [Stmt.wfB] at h
    have h2 := Bool.and_elim_right h
    have hc2 : c ∈ body ++ orelse := hc
    rcases List.mem_append.mp hc2 with hm | hm
    · exact wfListB_mem (Bool.and_elim_left h2) hm
    · exact wfListB_mem (Bool.and_elim_right h2) hm
  | withStmt s0 e0 body =>
    rw [Stmt.wfB] at h
    exact wfListB_mem (Bool.and_elim_right h) hc
  | tryStmt s0 e0 body handlers orelse finalbody =>
    rw [Stmt.wfB] at h
    have h2 := Bool.and_elim_right h
    have hb := Bool.and_elim_left (Bool.and_elim_left (Bool.and_elim_left h2))
    have hh := Bool.and_elim_right (Bool.and_elim_left (Bool.and_elim_left h2))
    have ho := Bool.and_elim_right (Bool.and_elim_left h2)
    have hf := Bool.and_elim_right h2
    have hc2 : c ∈ body ++ handlers.flatten ++ orelse ++ finalbody := hc
    rcases List.mem_append.mp hc2 with hm1 | hm1
    · rcases List.mem_append.mp hm1 with hm2 | hm2
      · rcases List.mem_append.mp hm2 with hm3 | hm3
        · exact wfListB_mem hb hm3
        · obtain ⟨hl, hlm, hcm⟩ := List.mem_flatten.mp hm3
          exact wfListB_mem (wfHandlersB_mem hh hlm) hcm
      · exact wfListB_mem ho hm2
    · exact wfListB_mem hf hm1
  | otherStmt s0 e0 =>
    have hc2 : c ∈ ([] : List Stmt) := hc
    cases hc2

theorem nodeOk_facts {s : Stmt} (h : s.nodeOk = true) :
    1 ≤ s.startL ∧ s.startL ≤ s.endL ∧ s.fullStart ≤ s.startL ∧ 1 ≤ s.fullStart := by
  rw [Stmt.nodeOk] at h
  simp only [Bool.and_eq_true, decide_eq_true_eq, List.all_eq_true] at h
  obtain ⟨⟨⟨⟨h1, h2⟩, h3⟩, _⟩, _⟩ := h
  have hfull : s.fullStart ≤ s.startL ∧ 1 ≤ s.fullStart := by
    unfold Stmt.fullStart
    cases hd : s.decoList.head? with
    | none => simp only [Option.getD_none]; omega
    | some d =>
      have hdm : d ∈ s.decoList := List.mem_of_mem_head? hd
      have h4 := h3 d hdm
      simp only [Option.getD_some]
      omega
  exact ⟨h1, h2, hfull.1, hfull.2⟩

theorem listOrderedB_pairwise : ∀ (l : List Stmt), listOrderedB l = true →
    (∀ x ∈ l, x.fullStart ≤ x.endL) →
    l.Pairwise (fun a b => a.endL < b.fullStart)
  | [], _, _ => List.Pairwise.nil
  | [a], _, _ => by simp
  | a :: b :: rest, h, hall => by
    rw [listOrderedB] at h
    simp only [Bool.and_eq_true, decide_eq_true_eq] at h
    obtain ⟨hab, hrest⟩ := h
    have ih := listOrderedB_pairwise (b :: rest) hrest
      (fun x hx => hall x (List.mem_cons_of_mem _ hx))
    constructor
    · intro x hx
      rcases List.mem_cons.mp hx with rfl | hx2
      · exact hab
      · have h1 : b.fullStart ≤ b.endL := hall b (by simp)
        have h2 : b.endL < x.fullStart := (List.pairwise_cons.mp ih).1 x hx2
        omega
    · exact ih

theorem topWF_all {N : Nat} {stmts : List Stmt} (h : topLevelWFB N stmts = true) :
    (∀ x ∈ stmts, x.wfB = true ∧ x.endL ≤ N) ∧ listOrderedB stmts = true := by
  rw [topLevelWFB] at h
  simp only [Bool.and_eq_true, List.all_eq_true, decide_eq_true_eq] at h
  exact ⟨fun x hx => (h.1 x hx), h.2⟩

theorem ordered_disjoint {stmts : List Stmt}
    (hord : listOrderedB stmts = true)
    (hall : ∀ x ∈ stmts, x.wfB = true)
    {d t : Stmt} (hd : d ∈ stmts) (ht : t ∈ stmts) (hne : d ≠ t) :
    d.endL < t.startL ∨ t.endL < d.startL := by
  have hfe : ∀ x ∈ stmts, x.fullStart ≤ x.endL := by
    intro x hx
    have hf := nodeOk_facts (wfB_nodeOk (hall x hx))
    omega
  have hp := listOrderedB_pairwise stmts hord hfe
  have hp2 : stmts.Pairwise
      (fun a b => a.endL < b.fullStart ∨ b.endL < a.fullStart) :=
    hp.imp (fun h => Or.inl h)
  have hsym : Symmetric
      (fun a b : Stmt => a.endL < b.fullStart ∨ b.endL < a.fullStart) := by
    intro a b h; tauto
  have hft := nodeOk_facts (wfB_nodeOk (hall t ht))
  have hfd := nodeOk_facts (wfB_nodeOk (hall d hd))
  rcases hp2.forall hsym hd ht hne with h | h
  · left; omega
  · right; omega

theorem sigEndLine_le_endL (lines : List String) {d : Stmt}
    (h2 : d.startL ≤ d.endL) :
    sigEndLine lines d ≤ d.endL := by
  simp only [sigEndLine, extract_signature_lines]
  have hlen := sigGo_length_le
    ((lines.take (min d.endL lines.length)).drop (d.startL - 1)) (0, 0, 0)
  have hl2 : ((lines.take (min d.endL lines.length)).drop (d.startL - 1)).length =
      min d.endL lines.length - (d.startL - 1) := by
    simp [List.length_drop, List.length_take]
  omega

theorem lines_agree (s s2 : String) (stmts : List Stmt)
    (hlen : (rustLines s).length = (rustLines s2).length)
    (hwf : topLevelWFB (rustLines s).length stmts = true)
    (hdiff : ∀ i < (rustLines s).length,
        (rustLines s)[i]? ≠ (rustLines s2)[i]? →
          DiffInsideDefBody (rustLines s) stmts i) :
    ∀ t ∈ stmts, ∀ i, t.startL ≤ i + 1 →
      ((i + 1 ≤ t.endL ∧ t.isDefLike = false) ∨ i + 1 ≤ sigEndLine (rustLines s) t) →
      (rustLines s)[i]? = (rustLines s2)[i]? := by
  intro t ht i hge hbound
  obtain ⟨hall, hord⟩ := topWF_all hwf
  by_cases hiN : i < (rustLines s).length
  · by_contra hne
    obtain ⟨d, hd, hdef, hs1, hs2⟩ := hdiff i hiN hne
    have hfd := nodeOk_facts (wfB_nodeOk (hall d hd).1)
    have hft := nodeOk_facts (wfB_nodeOk (hall t ht).1)
    have hdge : d.startL ≤ i + 1 := by
      have : d.startL - 1 ≤ sigEndLine (rustLines s) d := by
        unfold sigEndLine; omega
      omega
    have hiend : i + 1 ≤ t.endL := by
      rcases hbound with ⟨h, _⟩ | h
      · exact h
      · exact le_trans h (sigEndLine_le_endL (rustLines s) hft.2.1)
    by_cases hdt : d = t
    · subst hdt
      rcases hbound with ⟨_, hfalse⟩ | h
      · rw [hdef] at hfalse; cases hfalse
      · omega
    · rcases ordered_disjoint hord (fun x hx => (hall x hx).1) hd ht hdt with h | h
      · omega
      · omega
  · have e1 : (rustLines s)[i]? = none := by
      apply List.getElem?_eq_none; omega
    have e2 : (rustLines s2)[i]? = none := by
      apply List.getElem?_eq_none; omega
    rw [e1, e2]

theorem sig_lines_congr (s s2 : String) (stmts : List Stmt)
    (hlen : (rustLines s).length = (rustLines s2).length)
    (hwf : topLevelWFB (rustLines s).length stmts = true)
    (hdiff : ∀ i < (rustLines s).length,
        (rustLines s)[i]? ≠ (rustLines s2)[i]? →
          DiffInsideDefBody (rustLines s) stmts i)
    (t : Stmt) (ht : t ∈ stmts) (_hdefl : t.isDefLike = true) :
    extract_signature_lines (rustLines s) t.startL t.endL =
      extract_signature_lines (rustLines s2) t.startL t.endL := by
  obtain ⟨hall, _⟩ := topWF_all hwf
  have hft := nodeOk_facts (wfB_nodeOk (hall t ht).1)
  have hsig : sigEndLine (rustLines s) t = t.startL - 1 +
      (sigGo (((rustLines s).take (min t.endL (rustLines s).length)).drop
        (t.startL - 1)) (0, 0, 0)).length := by
    simp [sigEndLine, extract_signature_lines]
  simp only [extract_signature_lines]
  rw [← hlen]
  apply sigGo_congr
  · simp only [List.length_drop, List.length_take]
    omega
  · intro j hj
    rw [slice_getElem, slice_getElem]
    by_cases hin : t.startL - 1 + j < min t.endL (rustLines s).length
    · rw [if_pos hin, if_pos hin]
      apply lines_agree s s2 stmts hlen hwf hdiff t ht
      · omega
      · right
        omega
    · rw [if_neg hin, if_neg hin]

theorem source_span_congr (s s2 : String) (stmts : List Stmt)
    (hlen : (rustLines s).length = (rustLines s2).length)
    (hwf : topLevelWFB (rustLines s).length stmts = true)
    (hdiff : ∀ i < (rustLines s).length,
        (rustLines s)[i]? ≠ (rustLines s2)[i]? →
          DiffInsideDefBody (rustLines s) stmts i)
    (t : Stmt) (ht : t ∈ stmts) (hdefl : t.isDefLike = false) :
    extract_source_lines s t.startL t.endL = extract_source_lines s2 t.startL t.endL := by
  obtain ⟨hall, _⟩ := topWF_all hwf
  have hft := nodeOk_facts (wfB_nodeOk (hall t ht).1)
  simp only [extract_source_lines]
  rw [← hlen]
  by_cases hc : (decide (t.startL < 1) || decide ((rustLines s).length < t.startL)) = true
  · rw [if_pos hc, if_pos hc]
  · rw [if_neg hc, if_neg hc]
    congr 2
    apply List.ext_getElem?
    intro j
    rw [slice_getElem, slice_getElem]
    by_cases hin : t.startL - 1 + j < min t.endL (rustLines s).length
    · rw [if_pos hin, if_pos hin]
      apply lines_agree s s2 stmts hlen hwf hdiff t ht
      · omega
      · left
        exact ⟨by omega, hdefl⟩
    · rw [if_neg hin, if_neg hin]

theorem skeletonParts_congr (s s2 : String) (stmts : List Stmt)
    (hlen : (rustLines s).length = (rustLines s2).length)
    (hwf : topLevelWFB (rustLines s).length stmts = true)
    (hdiff : ∀ i < (rustLines s).length,
        (rustLines s)[i]? ≠ (rustLines s2)[i]? →
          DiffInsideDefBody (rustLines s) stmts i) :
    ∀ l, (∀ x ∈ l, x ∈ stmts) →
      skeletonParts s (rustLines s) l = skeletonParts s2 (rustLines s2) l := by
  intro l
  induction l with
  | nil => intro _; rfl
  | cons st rest ih =>
    intro hsub
    have hst : st ∈ stmts := hsub st (List.mem_cons_self _ _)
    have ihr := ih (fun x hx => hsub x (List.mem_cons_of_mem _ hx))
    simp only [skeletonParts]
    rw [← hlen]
    by_cases hdl : st.isDefLike = true
    · simp only [hdl, if_true]
      by_cases hg : st.startL ≤ (rustLines s).length
      · simp only [if_pos hg]
        rw [sig_lines_congr s s2 stmts hlen hwf hdiff st hst hdl, ihr]
      · simp only [if_neg hg]
        exact ihr
    · have hdl2 : st.isDefLike = false := by
        revert hdl; cases st.isDefLike <;> simp
      simp only [hdl2, Bool.false_eq_true, if_false]
      by_cases hg : st.startL ≤ (rustLines s).length
      · simp only [if_pos hg]
        rw [source_span_congr s s2 stmts hlen hwf hdiff st hst hdl2, ihr]
      · simp only [if_neg hg]
        exact ihr

theorem extract_module_skeleton_congr (s s2 : String) (stmts : List Stmt)
    (hlen : (rustLines s).length = (rustLines s2).length)
    (hwf : topLevelWFB (rustLines s).length stmts = true)
    (hdiff : ∀ i < (rustLines s).length,
        (rustLines s)[i]? ≠ (rustLines s2)[i]? →
          DiffInsideDefBody (rustLines s) stmts i) :
    extract_module_skeleton s stmts = extract_module_skeleton s2 stmts := by
  simp only [extract_module_skeleton]
  rw [skeletonParts_congr s s2 stmts hlen hwf hdiff stmts (fun x hx => hx)]

theorem module_checksum_body_edit_invariant
    (s s2 : String) (stmts : List Stmt)
    (hlen : (rustLines s).length = (rustLines s2).length)
    (hwf : topLevelWFB (rustLines s).length stmts = true)
    (hdiff : ∀ i < (rustLines s).length,
        (rustLines s)[i]? ≠ (rustLines s2)[i]? →
          DiffInsideDefBody (rustLines s) stmts i)
    (bs bs2 : List Block)
    (hp : parse_module_internal s stmts = some bs)
    (hp2 : parse_module_internal s2 stmts = some bs2) :
    bs.head?.map (fun b => b.checksum) = bs2.head?.map (fun b => b.checksum) := by
  have hsk := extract_module_skeleton_congr s s2 stmts hlen hwf hdiff
  simp only [parse_module_internal] at hp hp2
  rw [hsk] at hp
  cases hske : extract_module_skeleton s2 stmts with
  | none => rw [hske] at hp; simp at hp
  | some sk =>
    rw [hske] at hp hp2
    cases h1 : extract_blocks_from_statements s stmts with
    | none => rw [h1] at hp; simp at hp
    | some rest =>
      rw [h1] at hp
      cases h2 : extract_blocks_from_statements s2 stmts with
      | none => rw [h2] at hp2; simp at hp2
      | some rest2 =>
        rw [h2] at hp2
        simp only [Option.bind_eq_bind, Option.some_bind, Option.pure_def, Option.some.injEq] at hp hp2
        rw [← hp, ← hp2]
        rfl

theorem BlocksOK_nil (lo hi : Nat) : BlocksOK lo hi [] :=
  ⟨by simp, by simp⟩

theorem BlocksOK_mono {lo hi lo2 hi2 : Nat} {bs : List Block}
    (h : BlocksOK lo hi bs) (hl : lo2 ≤ lo) (hh : hi ≤ hi2) :
    BlocksOK lo2 hi2 bs := by
  refine ⟨fun b hb => ?_, h.2⟩
  have := h.1 b hb
  exact ⟨this.1, this.2.1, by omega, by omega⟩

theorem BlocksOK_append {loA hiA loB hiB lo hi : Nat} {bs1 bs2 : List Block}
    (hA : BlocksOK loA hiA bs1) (hB : BlocksOK loB hiB bs2)
    (hcross : hiA ≤ loB) (hlo : lo ≤ loA) (hhi : hiA ≤ hi)
    (hlo2 : lo ≤ loB) (hhi2 : hiB ≤ hi) :
    BlocksOK lo hi (bs1 ++ bs2) := by
  constructor
  · intro b hb
    rcases List.mem_append.mp hb with hb1 | hb2
    · have := hA.1 b hb1
      exact ⟨this.1, this.2.1, by omega, by omega⟩
    · have := hB.1 b hb2
      exact ⟨this.1, this.2.1, by omega, by omega⟩
  · rw [List.pairwise_append]
    refine ⟨hA.2, hB.2, fun a ha b hb => ?_⟩
    have h1 := hA.1 a ha
    have h2 := hB.1 b hb
    omega

theorem listOrderedB_cons {a : Stmt} {rest : List Stmt}
    (h : listOrderedB (a :: rest) = true) : listOrderedB rest = true := by
  cases rest with
  | nil => rfl
  | cons b r =>
    rw [listOrderedB] at h
    exact Bool.and_elim_right h

theorem nodeOk_children {s : Stmt} (h : s.nodeOk = true) :
    (∀ c ∈ s.childSeq, s.startL ≤ c.fullStart ∧ c.endL ≤ s.endL) ∧
      listOrderedB s.childSeq = true := by
  rw [Stmt.nodeOk] at h
  simp only [Bool.and_eq_true, decide_eq_true_eq, List.all_eq_true] at h
  obtain ⟨⟨⟨⟨_, _⟩, _⟩, h4⟩, h5⟩ := h
  exact ⟨fun c hc => h4 c hc, h5⟩

theorem sizeOf_list_append (xs ys : List Stmt) :
    sizeOf (xs ++ ys) + 1 = sizeOf xs + sizeOf ys := by
  induction xs with
  | nil => simp only [List.nil_append, List.nil.sizeOf_spec]; omega
  | cons x xs ih =>
    simp only [List.cons_append, List.cons.sizeOf_spec]
    omega

theorem sizeOf_list_flatten (hs : List (List Stmt)) :
    sizeOf hs.flatten ≤ sizeOf hs := by
  induction hs with
  | nil => simp
  | cons h hs ih =>
    simp only [List.flatten_cons, List.cons.sizeOf_spec]
    have := sizeOf_list_append h hs.flatten
    omega

theorem extractList_append (source : String) (xs ys : List Stmt) :
    extract_blocks_from_statements source (xs ++ ys) = (do
      let b1 ← extract_blocks_from_statements source xs
      let b2 ← extract_blocks_from_statements source ys
      pure (b1 ++ b2)) := by
  induction xs with
  | nil =>
    simp only [List.nil_append, extract_blocks_from_statements]
    cases extract_blocks_from_statements source ys <;> simp
  | cons x xs ih =>
    simp only [List.cons_append, extract_blocks_from_statements, ih]
    cases extract_block_from_statement source x <;>
      cases hxs : extract_blocks_from_statements source xs <;>
      cases hys : extract_blocks_from_statements source ys <;>
      simp [ih, hxs, hys]

theorem extractHandlers_flatten (source : String) (hs : List (List Stmt)) :
    extract_blocks_from_handlers source hs =
      extract_blocks_from_statements source hs.flatten := by
  induction hs with
  | nil =>
    simp [extract_blocks_from_handlers, extract_blocks_from_statements]
  | cons h hs ih =>
    simp only [List.flatten_cons, extractList_append, extract_blocks_from_handlers, ih]

theorem extract_callable_assemble (source nm bt : String) (decos : List Nat)
    (dl el : Nat) (body : List Stmt) (b1 : List Block)
    (hb1 : (do
        let block_source ← extract_source_lines source ((decos.head?).getD dl) el
        let nested ← extract_blocks_from_statements source body
        pure ((⟨nm, bt, (decos.head?).getD dl, el,
          (body.head?.map Stmt.startL).getD dl,
          calculate_checksum block_source⟩ : Block) :: nested)) = some b1)
    (hdlel : dl ≤ el) (hfs : (decos.head?).getD dl ≤ dl)
    (hhead : ∀ c ∈ body, dl ≤ c.startL ∧ c.startL ≤ el)
    (hnested : ∀ nested, extract_blocks_from_statements source body = some nested →
        BlocksOK dl el nested) :
    BlocksOK ((decos.head?).getD dl) el b1 := by
  cases hsrc : extract_source_lines source ((decos.head?).getD dl) el with
  | none => rw [hsrc] at hb1; simp at hb1
  | some src0 =>
    rw [hsrc] at hb1
    cases hn : extract_blocks_from_statements source body with
    | none => rw [hn] at hb1; simp at hb1
    | some nested =>
      rw [hn] at hb1
      simp only [Option.bind_eq_bind, Option.some_bind, Option.pure_def,
        Option.some.injEq] at hb1
      subst hb1
      have hok := hnested nested hn
      constructor
      · intro b hb
        rcases List.mem_cons.mp hb with rfl | hbm
        · refine ⟨?_, ?_, le_refl _, ?_⟩
          · show (decos.head?).getD dl ≤ (Option.map Stmt.startL body.head?).getD dl
            cases hh : body.head? with
            | none => simp only [Option.map_none', Option.getD_none]; omega
            | some c =>
              have := hhead c (List.mem_of_mem_head? hh)
              simp only [Option.map_some', Option.getD_some]
              omega
          · show (Option.map Stmt.startL body.head?).getD dl ≤ el
            cases hh : body.head? with
            | none => simp only [Option.map_none', Option.getD_none]; omega
            | some c =>
              have := hhead c (List.mem_of_mem_head? hh)
              simp only [Option.map_some', Option.getD_some]
              omega
          · show (decos.head?).getD dl ≤ el
            omega
        · have := hok.1 b hbm
          exact ⟨this.1, this.2.1, by omega, this.2.2.2⟩
      · constructor
        · intro b hbm
          have := hok.1 b hbm
          show (decos.head?).getD dl ≤ b.start_line
          omega
        · exact hok.2

theorem extract_class_assemble (source nm : String) (decos : List Nat)
    (dl el : Nat) (body : List Stmt) (b1 : List Block)
    (hb1 : (do
        let block_source ← extract_source_lines source ((decos.head?).getD dl) el
        let nested ← extract_blocks_from_statements source body
        pure ((⟨nm, "class", (decos.head?).getD dl, el, dl,
          calculate_checksum block_source⟩ : Block) :: nested)) = some b1)
    (hdlel : dl ≤ el) (hfs : (decos.head?).getD dl ≤ dl)
    (hnested : ∀ nested, extract_blocks_from_statements source body = some nested →
        BlocksOK dl el nested) :
    BlocksOK ((decos.head?).getD dl) el b1 := by
  cases hsrc : extract_source_lines source ((decos.head?).getD dl) el with
  | none => rw [hsrc] at hb1; simp at hb1
  | some src0 =>
    rw [hsrc] at hb1
    cases hn : extract_blocks_from_statements source body with
    | none => rw [hn] at hb1; simp at hb1
    | some nested =>
      rw [hn] at hb1
      simp only [Option.bind_eq_bind, Option.some_bind, Option.pure_def,
        Option.some.injEq] at hb1
      subst hb1
      have hok := hnested nested hn
      constructor
      · intro b hb
        rcases List.mem_cons.mp hb with rfl | hbm
        · exact ⟨by show (decos.head?).getD dl ≤ dl; omega,
            by show dl ≤ el; omega, le_refl _, by show (decos.head?).getD dl ≤ el; omega⟩
        · have := hok.1 b hbm
          exact ⟨this.1, this.2.1, by omega, this.2.2.2⟩
      · constructor
        · intro b hbm
          have := hok.1 b hbm
          show (decos.head?).getD dl ≤ b.start_line
          omega
        · exact hok.2

theorem sizeOf_tail_lt (st : Stmt) (rest : List Stmt) :
    sizeOf rest < sizeOf (st :: rest) := by
  simp only [List.cons.sizeOf_spec]
  have : 0 < sizeOf st := by cases st <;> simp_arith
  omega

theorem sizeOf_fn_body_lt (nm : String) (ds : List Nat) (dl el : Nat)
    (body rest : List Stmt) :
    sizeOf body < sizeOf (Stmt.functionDef nm ds dl el body :: rest) := by
  simp only [List.cons.sizeOf_spec, Stmt.functionDef.sizeOf_spec]
  omega

theorem sizeOf_async_body_lt (nm : String) (ds : List Nat) (dl el : Nat)
    (body rest : List Stmt) :
    sizeOf body < sizeOf (Stmt.asyncFunctionDef nm ds dl el body :: rest) := by
  simp only [List.cons.sizeOf_spec, Stmt.asyncFunctionDef.sizeOf_spec]
  omega

theorem sizeOf_class_body_lt (nm : String) (ds : List Nat) (dl el : Nat)
    (body rest : List Stmt) :
    sizeOf body < sizeOf (Stmt.classDef nm ds dl el body :: rest) := by
  simp only [List.cons.sizeOf_spec, Stmt.classDef.sizeOf_spec]
  omega

theorem sizeOf_if_children_lt (s0 e0 : Nat) (body orelse rest : List Stmt) :
    sizeOf (body ++ orelse) < sizeOf (Stmt.ifStmt s0 e0 body orelse :: rest) := by
  have := sizeOf_list_append body orelse
  simp only [List.cons.sizeOf_spec, Stmt.ifStmt.sizeOf_spec]
  omega

theorem sizeOf_for_children_lt (s0 e0 : Nat) (body orelse rest : List Stmt) :
    sizeOf (body ++ orelse) < sizeOf (Stmt.forStmt s0 e0 body orelse :: rest) := by
  have := sizeOf_list_append body orelse
  simp only [List.cons.sizeOf_spec, Stmt.forStmt.sizeOf_spec]
  omega

theorem sizeOf_while_children_lt (s0 e0 : Nat) (body orelse rest : List Stmt) :
    sizeOf (body ++ orelse) < sizeOf (Stmt.whileStmt s0 e0 body orelse :: rest) := by
  have := sizeOf_list_append body orelse
  simp only [List.cons.sizeOf_spec, Stmt.whileStmt.sizeOf_spec]
  omega

theorem sizeOf_with_body_lt (s0 e0 : Nat) (body rest : List Stmt) :
    sizeOf body < sizeOf (Stmt.withStmt s0 e0 body :: rest) := by
  simp only [List.cons.sizeOf_spec, Stmt.withStmt.sizeOf_spec]
  omega

theorem sizeOf_try_children_lt (s0 e0 : Nat) (body : List Stmt)
    (handlers : List (List Stmt)) (orelse finalbody rest : List Stmt) :
    sizeOf (body ++ handlers.flatten ++ orelse ++ finalbody) <
      sizeOf (Stmt.tryStmt s0 e0 body handlers orelse finalbody :: rest) := by
  have ha := sizeOf_list_append (body ++ handlers.flatten ++ orelse) finalbody
  have hb := sizeOf_list_append (body ++ handlers.flatten) orelse
  have hc := sizeOf_list_append body handlers.flatten
  have hf := sizeOf_list_flatten handlers
  simp only [List.cons.sizeOf_spec, Stmt.tryStmt.sizeOf_spec]
  omega

theorem childSeq_sizeOf_le (s : Stmt) : sizeOf s.childSeq ≤ sizeOf s := by
  cases s with
  | functionDef nm ds dl el body =>
      simp only [Stmt.childSeq, Stmt.functionDef.sizeOf_spec]; omega
  | asyncFunctionDef nm ds dl el body =>
      simp only [Stmt.childSeq, Stmt.asyncFunctionDef.sizeOf_spec]; omega
  | classDef nm ds dl el body =>
      simp only [Stmt.childSeq, Stmt.classDef.sizeOf_spec]; omega
  | ifStmt s0 e0 body orelse =>
      have := sizeOf_list_append body orelse
      simp only [Stmt.childSeq, Stmt.ifStmt.sizeOf_spec]; omega
  | forStmt s0 e0 body orelse =>
      have := sizeOf_list_append body orelse
      simp only [Stmt.childSeq, Stmt.forStmt.sizeOf_spec]; omega
  | whileStmt s0 e0 body orelse =>
      have := sizeOf_list_append body orelse
      simp only [Stmt.childSeq, Stmt.whileStmt.sizeOf_spec]; omega
  | withStmt s0 e0 body =>
      simp only [Stmt.childSeq, Stmt.withStmt.sizeOf_spec]; omega
  | tryStmt s0 e0 body handlers orelse finalbody =>
      have ha := sizeOf_list_append (body ++ handlers.flatten ++ orelse) finalbody
      have hb := sizeOf_list_append (body ++ handlers.flatten) orelse
      have hc := sizeOf_list_append body handlers.flatten
      have hf := sizeOf_list_flatten handlers
      simp only [Stmt.childSeq, Stmt.tryStmt.sizeOf_spec]; omega
  | otherStmt s0 e0 =>
      simp only [Stmt.childSeq, Stmt.otherStmt.sizeOf_spec, List.nil.sizeOf_spec]
      omega

theorem sizeOf_childSeq_lt_cons (st : Stmt) (rest : List Stmt) :
    sizeOf st.childSeq < sizeOf (st :: rest) := by
  have h1 := childSeq_sizeOf_le st
  simp only [List.cons.sizeOf_spec]
  omega

theorem extract_blocks_ok (source : String) (l : List Stmt) (lo hi : Nat)
    (h1 : ∀ x ∈ l, x.wfB = true ∧ lo ≤ x.fullStart ∧ x.endL ≤ hi)
    (h2 : listOrderedB l = true)
    (bs : List Block)
    (hx : extract_blocks_from_statements source l = some bs) :
    BlocksOK lo hi bs := by
  match l with
  | [] =>
    simp only [extract_blocks_from_statements, Option.pure_def, Option.some.injEq] at hx
    exact hx ▸ BlocksOK_nil lo hi
  | st :: rest =>
    have hst := h1 st (List.mem_cons_self _ _)
    have hnodeF := nodeOk_facts (wfB_nodeOk hst.1)
    have hchF := nodeOk_children (wfB_nodeOk hst.1)
    have hchAll : ∀ c ∈ st.childSeq,
        c.wfB = true ∧ st.startL ≤ c.fullStart ∧ c.endL ≤ st.endL := by
      intro c hc
      exact ⟨wfB_child hst.1 hc, (hchF.1 c hc).1, (hchF.1 c hc).2⟩
    have ihchild : ∀ nested, extract_blocks_from_statements source st.childSeq =
        some nested → BlocksOK st.startL st.endL nested :=
      fun nested hn =>
        extract_blocks_ok source st.childSeq st.startL st.endL hchAll hchF.2 nested hn
    simp only [extract_blocks_from_statements] at hx
    cases hb1 : extract_block_from_statement source st with
    | none => rw [hb1] at hx; simp at hx
    | some b1 =>
      rw [hb1] at hx
      cases hb2 : extract_blocks_from_statements source rest with
      | none => rw [hb2] at hx; simp at hx
      | some b2 =>
        rw [hb2] at hx
        simp only [Option.bind_eq_bind, Option.some_bind, Option.pure_def,
          Option.some.injEq] at hx
        subst hx
        have hfullend : ∀ x ∈ (st :: rest), x.fullStart ≤ x.endL := by
          intro x hxm
          have hf := nodeOk_facts (wfB_nodeOk (h1 x hxm).1)
          omega
        have hpw := listOrderedB_pairwise _ h2 hfullend
        have hrest_lt : ∀ t ∈ rest, st.endL < t.fullStart :=
          (List.pairwise_cons.mp hpw).1
        have ihrest : BlocksOK (st.endL + 1) hi b2 :=
          extract_blocks_ok source rest (st.endL + 1) hi
            (fun x hxm => ⟨(h1 x (List.mem_cons_of_mem _ hxm)).1,
              by have := hrest_lt x hxm; omega,
              (h1 x (List.mem_cons_of_mem _ hxm)).2.2⟩)
            (listOrderedB_cons h2) b2 hb2
        have ihst : BlocksOK st.fullStart st.endL b1 := by
          cases st with
          | functionDef nm decos dl el body =>
            simp only [extract_block_from_statement] at hb1
            have hdlel : dl ≤ el := hnodeF.2.1
            have hfs : (decos.head?).getD dl ≤ dl := hnodeF.2.2.1
            have hch2 : ∀ c ∈ body, c.wfB = true ∧ dl ≤ c.fullStart ∧ c.endL ≤ el :=
              hchAll
            have hhead : ∀ c ∈ body, dl ≤ c.startL ∧ c.startL ≤ el := by
              intro c hcm
              obtain ⟨hcw, hcfs, hce⟩ := hch2 c hcm
              have hcf := nodeOk_facts (wfB_nodeOk hcw)
              exact ⟨by omega, by omega⟩
            exact extract_callable_assemble source nm "function" decos dl el body b1
              hb1 hdlel hfs hhead ihchild
          | asyncFunctionDef nm decos dl el body =>
            simp only [extract_block_from_statement] at hb1
            have hdlel : dl ≤ el := hnodeF.2.1
            have hfs : (decos.head?).getD dl ≤ dl := hnodeF.2.2.1
            have hch2 : ∀ c ∈ body, c.wfB = true ∧ dl ≤ c.fullStart ∧ c.endL ≤ el :=
              hchAll
            have hhead : ∀ c ∈ body, dl ≤ c.startL ∧ c.startL ≤ el := by
              intro c hcm
              obtain ⟨hcw, hcfs, hce⟩ := hch2 c hcm
              have hcf := nodeOk_facts (wfB_nodeOk hcw)
              exact ⟨by omega, by omega⟩
            exact extract_callable_assemble source nm "async_function" decos dl el body b1
              hb1 hdlel hfs hhead ihchild
          | classDef nm decos dl el body =>
            simp only [extract_block_from_statement] at hb1
            have hdlel : dl ≤ el := hnodeF.2.1
            have hfs : (decos.head?).getD dl ≤ dl := hnodeF.2.2.1
            exact extract_class_assemble source nm decos dl el body b1 hb1 hdlel hfs
              ihchild
          | ifStmt s0 e0 body orelse =>
            rw [show extract_block_from_statement source (Stmt.ifStmt s0 e0 body orelse) =
                extract_blocks_from_statements source (body ++ orelse) by
              simp only [extract_block_from_statement, extractList_append]] at hb1
            exact ihchild b1 hb1
          | forStmt s0 e0 body orelse =>
            rw [show extract_block_from_statement source (Stmt.forStmt s0 e0 body orelse) =
                extract_blocks_from_statements source (body ++ orelse) by
              simp only [extract_block_from_statement, extractList_append]] at hb1
            exact ihchild b1 hb1
          | whileStmt s0 e0 body orelse =>
            rw [show extract_block_from_statement source
                  (Stmt.whileStmt s0 e0 body orelse) =
                extract_blocks_from_statements source (body ++ orelse) by
              simp only [extract_block_from_statement, extractList_append]] at hb1
            exact ihchild b1 hb1
          | withStmt s0 e0 body =>
            simp only [extract_block_from_statement] at hb1
            exact ihchild b1 hb1
          | tryStmt s0 e0 body handlers orelse finalbody =>
            rw [show extract_block_from_statement source
                  (Stmt.tryStmt s0 e0 body handlers orelse finalbody) =
                extract_blocks_from_statements source
                  (body ++ handlers.flatten ++ orelse ++ finalbody) by
              simp only [extract_block_from_statement, extractHandlers_flatten,
                extractList_append]
              cases extract_blocks_from_statements source body <;>
                cases extract_blocks_from_statements source handlers.flatten <;>
                cases extract_blocks_from_statements source orelse <;>
                cases extract_blocks_from_statements source finalbody <;>
                simp] at hb1
            exact ihchild b1 hb1
          | otherStmt s0 e0 =>
            simp only [extract_block_from_statement, Option.pure_def,
              Option.some.injEq] at hb1
            exact hb1 ▸ BlocksOK_nil _ _
        exact BlocksOK_append ihst ihrest (by omega) (by exact hst.2.1) (by exact hst.2.2)
          (by omega) (by omega)
termination_by sizeOf l
decreasing_by
  all_goals simp_wf
  all_goals
    first
    | apply sizeOf_childSeq_lt_cons
    | apply sizeOf_tail_lt

/-- C9: every block list returned by `parse_module` on parseable source
has the module block first with `start_line = 1`, `end_line` the file's
line count clamped to at least 1, every block satisfies
`start_line ≤ body_start_line ≤ end_line`, and the list is in source
order (start lines non-decreasing along the pre-order emission). -/
theorem parse_module_invariants (source : String) (parsed : List Stmt)
    (hwf : topLevelWFB (rustLines source).length parsed = true)
    (blocks : List Block)
    (hp : parse_module_internal source parsed = some blocks) :
    (∃ mb rest, blocks = mb :: rest ∧ mb.name = "<module>" ∧
        mb.block_type = "module" ∧ mb.start_line = 1 ∧
        mb.end_line = max (rustLines source).length 1 ∧ 1 ≤ mb.end_line ∧
        mb.body_start_line = 1) ∧
    (∀ b ∈ blocks, b.start_line ≤ b.body_start_line ∧ b.body_start_line ≤ b.end_line) ∧
    blocks.Pairwise (fun a b => a.start_line ≤ b.start_line) := by
  simp only [parse_module_internal] at hp
  cases hsk : extract_module_skeleton source parsed with
  | none => rw [hsk] at hp; simp at hp
  | some sk =>
    rw [hsk] at hp
    cases hr : extract_blocks_from_statements source parsed with
    | none => rw [hr] at hp; simp at hp
    | some rest =>
      rw [hr] at hp
      simp only [Option.bind_eq_bind, Option.some_bind, Option.pure_def,
        Option.some.injEq] at hp
      subst hp
      obtain ⟨hall, hord⟩ := topWF_all hwf
      have hro : BlocksOK 1 (max (rustLines source).length 1) rest := by
        refine BlocksOK_mono (extract_blocks_ok source parsed 1
          (rustLines source).length ?_ hord rest hr) (le_refl 1) (Nat.le_max_left _ _)
        intro x hx
        have hfx := nodeOk_facts (wfB_nodeOk (hall x hx).1)
        exact ⟨(hall x hx).1, by omega, (hall x hx).2⟩
      refine ⟨⟨_, rest, rfl, rfl, rfl, rfl, rfl, Nat.le_max_right _ _, rfl⟩, ?_, ?_⟩
      · intro b hb
        rcases List.mem_cons.mp hb with rfl | hbm
        · exact ⟨le_refl 1, Nat.le_max_right _ _⟩
        · exact ⟨(hro.1 b hbm).1, (hro.1 b hbm).2.1⟩
      · constructor
        · intro b hbm
          exact (hro.1 b hbm).2.2.1
        · exact hro.2

/-- C1 (code bug): `filter_executed_blocks_rust` intersects executed lines
with `[start_line, end_line]`, not `[body_start_line, end_line]`. On the
decorated-function file, where only the decorator line 1 executed at
import, the never-called `get_data` block (body lines 3..3) is still
retained, and `process_coverage_data` keeps its checksum in the reduced
fingerprint — contradicting the claim that retention requires an executed
line in `[body_start_line, end_line]`. -/
theorem filter_executed_blocks_uses_start_line :
    parse_module_internal c1Src c1Ast = some c1Blocks ∧
    filter_executed_blocks_rust c1Blocks [1] = c1Blocks ∧
    (∀ b ∈ c1Blocks, b.name = "get_data" →
      ∀ line ∈ [1], ¬ (b.body_start_line ≤ line ∧ line ≤ b.end_line)) ∧
    (process_coverage_data_internal
        (fun p => if p = "/proj/app.py" then some c1Fp else none)
        [("/proj/app.py", [1])] "/proj" "/proj/test_a.py" ["/proj"]).map
          (fun fp => fp.checksums) = [c1Blocks.map (fun b => b.checksum)] := by
  refine ⟨?_, ?_, ?_, ?_⟩ <;> decide

/-- C2 (counterexample): adding the decorator `@deco` to `def f` leaves
the module block's checksum unchanged, because the module skeleton's
signature lines start at the `def` statement line (`stmt.start()`), which
excludes decorators — contradicting the claim that the module checksum
changes. -/
theorem decorator_preserves_module_checksum :
    (parse_module_internal c2SrcA c2AstA).isSome = true ∧
    (parse_module_internal c2SrcB c2AstB).isSome = true ∧
    ((parse_module_internal c2SrcA c2AstA).getD []).head?.map (fun b => b.checksum) =
      ((parse_module_internal c2SrcB c2AstB).getD []).head?.map (fun b => b.checksum) := by
  refine ⟨?_, ?_, ?_⟩ <;> decide

/-- C2 (amended): adding or removing a decorator changes the function
block's checksum — the block's verbatim span includes the decorator
lines — but leaves the module block's checksum unchanged, since the
skeleton's signature extraction starts at the `def` line and never covers
decorator lines. -/
theorem decorator_changes_function_checksum_not_module :
    ((parse_module_internal c2SrcA c2AstA).getD [])[1]?.map (fun b => b.checksum) ≠
      ((parse_module_internal c2SrcB c2AstB).getD [])[1]?.map (fun b => b.checksum) ∧
    ((parse_module_internal c2SrcA c2AstA).getD []).head?.map (fun b => b.checksum) =
      ((parse_module_internal c2SrcB c2AstB).getD []).head?.map (fun b => b.checksum) := by
  refine ⟨?_, ?_⟩ <;> decide

/-- C6 (code bug): `TestmonDatabase.get_affected_tests` in src is a
`TODO` stub that returns the empty list for every query; in the S6
scenario (test T2 recorded `bar.py`'s function checksum, which is now in
the changed set) it returns `[]` rather than `[T2]`. -/
theorem get_affected_tests_stub_returns_empty :
    TestmonDatabase.get_affected_tests ⟨".testmondata"⟩ [("/proj/bar.py", [1234])] = [] :=
  rfl

/-- Witness for C3: editing only the body line of `f` (line 2) keeps the
module checksum; the hypotheses of the body-edit theorem hold at this
concrete pair of sources and the theorem yields the checksum equality. -/
theorem module_checksum_body_edit_invariant_witness :
    ((rustLines c3SrcA).length = (rustLines c3SrcB).length ∧
      topLevelWFB (rustLines c3SrcA).length c3Ast = true ∧
      (∀ i < (rustLines c3SrcA).length,
        (rustLines c3SrcA)[i]? ≠ (rustLines c3SrcB)[i]? →
          DiffInsideDefBody (rustLines c3SrcA) c3Ast i)) ∧
    ((parse_module_internal c3SrcA c3Ast).getD []).head?.map (fun b => b.checksum) =
      ((parse_module_internal c3SrcB c3Ast).getD []).head?.map (fun b => b.checksum) :=
  ⟨⟨by decide, by decide, by decide⟩,
    module_checksum_body_edit_invariant c3SrcA c3SrcB c3Ast (by decide) (by decide)
      (by decide) ((parse_module_internal c3SrcA c3Ast).getD [])
      ((parse_module_internal c3SrcB c3Ast).getD []) (by decide) (by decide)⟩

/-- Witness for C9: the invariants hold for the parsed two-line
`def add` module, discharging the well-formedness and parse-success
hypotheses by evaluation. -/
theorem parse_module_invariants_witness :
    topLevelWFB (rustLines c9Src).length c9Ast = true ∧
    ((∃ mb rest, (parse_module_internal c9Src c9Ast).getD [] = mb :: rest ∧
        mb.name = "<module>" ∧ mb.block_type = "module" ∧ mb.start_line = 1 ∧
        mb.end_line = max (rustLines c9Src).length 1 ∧ 1 ≤ mb.end_line ∧
        mb.body_start_line = 1) ∧
      (∀ b ∈ (parse_module_internal c9Src c9Ast).getD [],
        b.start_line ≤ b.body_start_line ∧ b.body_start_line ≤ b.end_line) ∧
      ((parse_module_internal c9Src c9Ast).getD []).Pairwise
        (fun a b => a.start_line ≤ b.start_line)) :=
  ⟨by decide,
    parse_module_invariants c9Src c9Ast (by decide)
      ((parse_module_internal c9Src c9Ast).getD []) (by decide)⟩

/-- C7 (counterexample): with the file readable but unparseable
(`def foo(`), `calculate_fingerprint` raises the `IOError` kind — the
pyfunction wrapper maps every internal failure, parse errors included, to
`PyIOError` — rather than the `ParseError` kind the claim requires. -/
theorem calculate_fingerprint_parse_error_is_io_error :
    calculate_fingerprint c7Env c7Fs "/proj/x.py" =
      .error (.ioError ("Failed to calculate fingerprint: " ++
        "Failed to parse Python file: Failed to parse Python code")) :=
  rfl

/-- C7 (amended): `calculate_fingerprint` propagates every failure to the
caller — read failure, parse failure and stat failure all yield an error
(all surfaced with the `IOError` kind, the message distinguishing the
cause) — and on success returns a `Fingerprint` whose checksums are
exactly the per-block checksums of the parsed content. -/
theorem calculate_fingerprint_propagates_failures (env : ExternalEnv)
    (fs : FileSystem) (path : String) :
    (fs.readResult path = none →
      ∃ msg, calculate_fingerprint env fs path = .error (.ioError msg)) ∧
    (∀ content, fs.readResult path = some content →
      (env.astOf content >>= parse_module_internal content) = none →
      ∃ msg, calculate_fingerprint env fs path = .error (.ioError msg)) ∧
    (∀ content blocks, fs.readResult path = some content →
      (env.astOf content >>= parse_module_internal content) = some blocks →
      fs.mtimeResult path = none →
      ∃ msg, calculate_fingerprint env fs path = .error (.ioError msg)) ∧
    (∀ content blocks m, fs.readResult path = some content →
      (env.astOf content >>= parse_module_internal content) = some blocks →
      fs.mtimeResult path = some m →
      calculate_fingerprint env fs path = .ok ⟨path, blocks.map (fun b => b.checksum),
        env.blake3_hex content, m, some blocks⟩) := by
  refine ⟨?_, ?_, ?_, ?_⟩
  · intro hr
    refine ⟨"Failed to calculate fingerprint: " ++ ("Failed to read file: " ++ path), ?_⟩
    simp [calculate_fingerprint, calculate_fingerprint_internal, hr]
  · intro content hr hp
    refine ⟨"Failed to calculate fingerprint: " ++ ("Failed to parse Python file: " ++
      "Failed to parse Python code"), ?_⟩
    simp [calculate_fingerprint, calculate_fingerprint_internal, parse_module, pyErrMsg,
      hr, hp]
  · intro content blocks hr hp hm
    refine ⟨"Failed to calculate fingerprint: " ++ ("Failed to get metadata for: " ++
      path), ?_⟩
    simp [calculate_fingerprint, calculate_fingerprint_internal, parse_module, hr, hp, hm]
  · intro content blocks m hr hp hm
    simp [calculate_fingerprint, calculate_fingerprint_internal, parse_module, hr, hp, hm]

/-- Witness for the amended C7: a readable, parseable one-line module
yields a successful fingerprint whose checksum list is the parsed
blocks' checksums. -/
theorem calculate_fingerprint_propagates_failures_witness :
    c7FsOk.readResult "/proj/a.py" = some "x = 1\n" ∧
    calculate_fingerprint c7EnvOk c7FsOk "/proj/a.py" =
      .ok ⟨"/proj/a.py",
        (((parse_module_internal "x = 1\n" [Stmt.otherStmt 1 1]).getD []).map
          (fun b => b.checksum)), "h77", 5,
        some ((parse_module_internal "x = 1\n" [Stmt.otherStmt 1 1]).getD [])⟩ :=
  ⟨rfl,
    (calculate_fingerprint_propagates_failures c7EnvOk c7FsOk "/proj/a.py").2.2.2
      "x = 1\n" ((parse_module_internal "x = 1\n" [Stmt.otherStmt 1 1]).getD []) 5
      rfl (by decide) rfl⟩

/-- C10: with an empty `scope_paths` list the scope test is an
existential over the empty list, so the walk admits no file:
`find_python_files` is empty, `save_baseline` writes zero fingerprints,
`detect_changes` reports nothing modified, and `process_coverage_data`
returns no fingerprints, regardless of project tree, oracles, or
coverage input. -/
theorem empty_scope_paths_produce_empty_results (env : ExternalEnv)
    (fs : FileSystem) (db : String → Option Fingerprint)
    (walk : List String) (isFileEntry : String → Bool) (canon : String → String)
    (fpOracle : String → Option Fingerprint)
    (coverage_data : List (String × List Nat)) (project_root test_file : String) :
    find_python_files walk isFileEntry canon [] = [] ∧
    save_baseline_internal env fs walk isFileEntry canon [] = 0 ∧
    detect_changes_internal env fs db walk isFileEntry canon [] = ⟨[], []⟩ ∧
    process_coverage_data_internal fpOracle coverage_data project_root test_file [] = [] := by
  have hfind : find_python_files walk isFileEntry canon [] = [] := by
    simp [find_python_files]
  refine ⟨hfind, ?_, ?_, ?_⟩
  · simp [save_baseline_internal, hfind, save_baseline_fingerprints_batch]
  · simp [detect_changes_internal, hfind]
  · have hspf : ∀ f, should_process_file f project_root test_file [] = false := by
      intro f
      simp [should_process_file]
    simp [process_coverage_data_internal]
    intro a b hab
    simp [hspf a]

theorem should_process_file_test_rule {f root T : String} {scopes : List String}
    (h : should_process_file f root T scopes = true)
    (ht : is_test_file f = true) : pathEq f T = true := by
  unfold should_process_file at h
  split at h
  · cases h
  · split at h
    · cases h
    · split at h
      · cases h
      · rw [ht] at h
        cases hq : pathEq f T
        · rw [hq] at h; simp at h
        · rfl

/-- C8: in `process_coverage_data`, no file other than the current test
file that the heuristic identifies as a test file ever appears in the
returned reduced fingerprint list, and the current test file itself is
never rejected by the test-file rule (it is admitted whenever the
extension, project-root and scope checks pass). -/
theorem coverage_filter_admits_no_other_test_file
    (fpOracle : String → Option Fingerprint)
    (coverage_data : List (String × List Nat))
    (project_root test_file : String) (scope_paths : List String)
    (hOracle : ∀ p fp, fpOracle p = some fp → fp.filename = p) :
    (∀ fp ∈ process_coverage_data_internal fpOracle coverage_data project_root
        test_file scope_paths,
      is_test_file fp.filename = true → pathEq fp.filename test_file = true) ∧
    (pathExtension test_file = some "py" →
      project_root.data.isPrefixOf test_file.data = true →
      scope_paths.any (fun scope => pathStartsWith test_file scope) = true →
      should_process_file test_file project_root test_file scope_paths = true) := by
  constructor
  · intro fp hfp htest
    simp only [process_coverage_data_internal, List.mem_filterMap] at hfp
    obtain ⟨e, he, hsome⟩ := hfp
    by_cases hsp : should_process_file e.1 project_root test_file scope_paths = true
    · have hname : fp.filename = e.1 := by
        rw [hsp] at hsome
        simp only [Bool.not_true, Bool.false_eq_true, if_false] at hsome
        cases ho : fpOracle e.1 with
        | none => rw [ho] at hsome; cases hsome
        | some fp0 =>
          rw [ho] at hsome
          dsimp only at hsome
          have hfp0 := hOracle e.1 fp0 ho
          cases hb : fp0.blocks with
          | none =>
            rw [hb] at hsome
            dsimp only at hsome
            cases hsome
            exact hfp0
          | some blocks =>
            rw [hb] at hsome
            dsimp only at hsome
            split at hsome
            · cases hsome
            · cases hsome
              exact hfp0
      rw [hname] at htest ⊢
      exact should_process_file_test_rule hsp htest
    · rw [Bool.not_eq_true] at hsp
      rw [hsp] at hsome
      simp at hsome
  · intro hext hroot hscope
    have hq : pathEq test_file test_file = true := by simp [pathEq]
    simp [should_process_file, hext, hroot, hscope, hq]

/-- Witness for C8 at a concrete project: admitted files are non-test
files and the current test file passes the admission checks. -/
theorem coverage_filter_admits_no_other_test_file_witness :
    (∀ fp ∈ process_coverage_data_internal c8Oracle
        [("/proj/src/app.py", [1]), ("/proj/test_b.py", [1])] "/proj"
        "/proj/test_a.py" ["/proj"],
      is_test_file fp.filename = true → pathEq fp.filename "/proj/test_a.py" = true) ∧
    should_process_file "/proj/test_a.py" "/proj" "/proj/test_a.py" ["/proj"] = true :=
  ⟨(coverage_filter_admits_no_other_test_file c8Oracle
      [("/proj/src/app.py", [1]), ("/proj/test_b.py", [1])] "/proj" "/proj/test_a.py"
      ["/proj"] (fun p fp h => by cases h; rfl)).1,
   (coverage_filter_admits_no_other_test_file c8Oracle
      [("/proj/src/app.py", [1]), ("/proj/test_b.py", [1])] "/proj" "/proj/test_a.py"
      ["/proj"] (fun p fp h => by cases h; rfl)).2 (by decide) (by decide) (by decide)⟩

theorem ratAbs_eq_abs (x : ℚ) : ratAbs x = |x| := by
  unfold ratAbs
  rcases lt_or_le x 0 with h | h
  · rw [if_pos h, abs_of_neg h]
  · rw [if_neg (not_lt.mpr h), abs_of_nonneg h]

theorem c5_check_eval :
    check_file_changed c5Env c5Fs c5Db "/p/a.py" = .ok (some ("/p/a.py", [999])) := by
  have h1 : ¬ (ratAbs ((1 : ℚ) - 0) < 1/1000) := by
    norm_num [ratAbs]
  have h2 : (("newh" == "oldh") : Bool) = false := by decide
  have h3 : (parse_module_internal "x = 1\n" [Stmt.otherStmt 1 1]) =
      some [⟨"<module>", "module", 1, 1, 1, calculate_checksum "x = 1"⟩] := by decide
  have h4 : (([calculate_checksum "x = 1"] : List Int) == [999]) = false := by decide
  simp only [check_file_changed, c5Env, c5Fs, c5Db, c5Stored]
  rw [if_neg h1]
  rw [h2]
  simp only [Bool.false_eq_true, if_false]
  rw [show ((fun _ => some [Stmt.otherStmt 1 1]) "x = 1\n" >>=
      parse_module_internal "x = 1\n") = some [⟨"<module>", "module", 1, 1, 1,
        calculate_checksum "x = 1"⟩] from h3]
  dsimp only
  rw [show (List.map (fun b => b.checksum) [(⟨"<module>", "module", 1, 1, 1,
      calculate_checksum "x = 1"⟩ : Block)]) = [calculate_checksum "x = 1"] from rfl]
  rw [h4]
  simp only [Bool.false_eq_true, if_false]
  rw [show find_changed_checksums [999] [calculate_checksum "x = 1"] = [999] from by decide]

theorem find_changed_checksums_mem (old_checksums new_checksums : List Int) (c : Int) :
    c ∈ find_changed_checksums old_checksums new_checksums ↔
      (c ∈ old_checksums ∧ c ∉ new_checksums) := by
  simp [find_changed_checksums, List.mem_filter]

/-- C5: when a file is reported changed, its changed-blocks contribution
is exactly the old (baseline) checksums that occur nowhere in the freshly
extracted checksum list — not the symmetric difference: membership in
the contribution is equivalent to being an old checksum absent from the
new list, so new checksums contribute nothing. -/
theorem changed_blocks_are_missing_old_checksums (env : ExternalEnv) (fs : FileSystem)
    (db : String → Option Fingerprint) (path : String) (stored : Fingerprint)
    (content : String) (blocks : List Block) (cs : List Int)
    (hdb : db path = some stored)
    (hread : fs.readResult path = some content)
    (hparse : (env.astOf content >>= parse_module_internal content) = some blocks)
    (hres : check_file_changed env fs db path = .ok (some (path, cs))) :
    cs = find_changed_checksums stored.checksums (blocks.map (fun b => b.checksum)) ∧
    ∀ c : Int, c ∈ cs ↔
      (c ∈ stored.checksums ∧ c ∉ blocks.map (fun b => b.checksum)) := by
  have hcs : cs = find_changed_checksums stored.checksums
      (blocks.map (fun b => b.checksum)) := by
    simp only [check_file_changed] at hres
    rw [hdb] at hres
    cases hm : fs.mtimeResult path with
    | none => rw [hm] at hres; cases hres
    | some m =>
      rw [hm] at hres
      dsimp only at hres
      split at hres
      · cases hres
      · rw [hread] at hres
        dsimp only at hres
        split at hres
        · cases hres
        · rw [hparse] at hres
          dsimp only at hres
          split at hres
          · cases hres
          · simp only [Except.ok.injEq, Option.some.injEq, Prod.mk.injEq] at hres
            exact hres.2.symm
  refine ⟨hcs, fun c => ?_⟩
  rw [hcs]
  exact find_changed_checksums_mem _ _ c

/-- Witness for C5 at a concrete changed file: the stored checksum 999 is
gone from the new list, so the contribution is exactly `[999]`. -/
theorem changed_blocks_are_missing_old_checksums_witness :
    check_file_changed c5Env c5Fs c5Db "/p/a.py" = .ok (some ("/p/a.py", [999])) ∧
    ([999] : List Int) = find_changed_checksums c5Stored.checksums
      (((parse_module_internal "x = 1\n" [Stmt.otherStmt 1 1]).getD []).map
        (fun b => b.checksum)) ∧
    ∀ c : Int, c ∈ ([999] : List Int) ↔
      (c ∈ c5Stored.checksums ∧
        c ∉ ((parse_module_internal "x = 1\n" [Stmt.otherStmt 1 1]).getD []).map
          (fun b => b.checksum)) :=
  ⟨c5_check_eval,
    (changed_blocks_are_missing_old_checksums c5Env c5Fs c5Db "/p/a.py" c5Stored
      "x = 1\n" ((parse_module_internal "x = 1\n" [Stmt.otherStmt 1 1]).getD [])
      [999] rfl rfl (by decide) c5_check_eval).1,
    (changed_blocks_are_missing_old_checksums c5Env c5Fs c5Db "/p/a.py" c5Stored
      "x = 1\n" ((parse_module_internal "x = 1\n" [Stmt.otherStmt 1 1]).getD [])
      [999] rfl rfl (by decide) c5_check_eval).2⟩

theorem check_file_changed_fst (env : ExternalEnv) (fs : FileSystem)
    (db : String → Option Fingerprint) (path q : String) (cs : List Int)
    (h : check_file_changed env fs db path = .ok (some (q, cs))) : q = path := by
  simp only [check_file_changed] at h
  cases hdb : db path with
  | none => rw [hdb] at h; simp at h
  | some stored =>
    rw [hdb] at h
    cases hm : fs.mtimeResult path with
    | none => rw [hm] at h; simp at h
    | some m =>
      rw [hm] at h
      dsimp only at h
      split at h
      · simp at h
      · cases hr : fs.readResult path with
        | none => rw [hr] at h; simp at h
        | some content =>
          rw [hr] at h
          dsimp only at h
          split at h
          · simp at h
          · cases hp : env.astOf content >>= parse_module_internal content with
            | none => rw [hp] at h; simp at h
            | some blocks =>
              rw [hp] at h
              dsimp only at h
              split at h
              · simp at h
              · simp only [Except.ok.injEq, Option.some.injEq, Prod.mk.injEq] at h
                exact h.1.symm

theorem check_file_changed_eval (env : ExternalEnv) (fs : FileSystem)
    (db : String → Option Fingerprint) (path : String) (m : ℚ) (content : String)
    (blocks : List Block)
    (hstat : fs.mtimeResult path = some m)
    (hread : fs.readResult path = some content)
    (hparse : (env.astOf content >>= parse_module_internal content) = some blocks) :
    check_file_changed env fs db path =
      match db path with
      | none => .ok none
      | some stored =>
        if ratAbs (m - stored.mtime) < 1/1000 then .ok none
        else if env.blake3_hex content == stored.file_hash then .ok none
        else if blocks.map (fun b => b.checksum) == stored.checksums then .ok none
        else .ok (some (path, find_changed_checksums stored.checksums
            (blocks.map (fun b => b.checksum)))) := by
  simp only [check_file_changed]
  cases db path with
  | none => rfl
  | some stored =>
    rw [hstat]
    dsimp only
    by_cases h1 : ratAbs (m - stored.mtime) < 1/1000
    · rw [if_pos h1, if_pos h1]
    · rw [if_neg h1, if_neg h1, hread]
      dsimp only
      by_cases h2 : (env.blake3_hex content == stored.file_hash) = true
      · rw [if_pos h2, if_pos h2]
      · rw [if_neg h2, if_neg h2, hparse]

theorem mem_modified_iff (env : ExternalEnv) (fs : FileSystem)
    (db : String → Option Fingerprint) (walk : List String)
    (isFileEntry : String → Bool) (canon : String → String)
    (scope_paths : List String) (path : String) :
    path ∈ (detect_changes_internal env fs db walk isFileEntry canon scope_paths).modified ↔
      ∃ p cs, p ∈ find_python_files walk isFileEntry canon scope_paths ∧
        check_file_changed env fs db p = .ok (some (path, cs)) := by
  have key : ∀ p (e : String × List Int), (match check_file_changed env fs db p with
      | .ok (some change) => some change
      | _ => none) = some e ↔
      check_file_changed env fs db p = .ok (some e) := by
    intro p e
    cases hc : check_file_changed env fs db p with
    | error u => simp
    | ok oc => cases oc <;> simp
  simp only [detect_changes_internal, List.mem_map, List.mem_filterMap, key]
  constructor
  · rintro ⟨⟨a, b⟩, ⟨p, hp, hc⟩, rfl⟩
    exact ⟨p, b, hp, hc⟩
  · rintro ⟨p, cs, hp, hc⟩
    exact ⟨(path, cs), ⟨p, hp, hc⟩, rfl⟩

/-- C4: under the success of the stat, read and parse effects, a walked
project file is absent from `modified` exactly when the baseline
fingerprint is missing, or the mtimes differ by less than one
millisecond, or the BLAKE3 digests agree, or the freshly extracted
checksum list equals the stored one order-sensitively; otherwise the file
appears in `modified`. -/
theorem detect_changes_unchanged_iff (env : ExternalEnv) (fs : FileSystem)
    (db : String → Option Fingerprint) (walk : List String)
    (isFileEntry : String → Bool) (canon : String → String)
    (scope_paths : List String) (path : String) (m : ℚ) (content : String)
    (blocks : List Block)
    (hmem : path ∈ find_python_files walk isFileEntry canon scope_paths)
    (hstat : fs.mtimeResult path = some m)
    (hread : fs.readResult path = some content)
    (hparse : (env.astOf content >>= parse_module_internal content) = some blocks) :
    path ∉ (detect_changes_internal env fs db walk isFileEntry canon scope_paths).modified ↔
      (db path = none ∨ ∃ stored : Fingerprint, db path = some stored ∧
        (ratAbs (m - stored.mtime) < 1/1000 ∨
         env.blake3_hex content = stored.file_hash ∨
         blocks.map (fun b => b.checksum) = stored.checksums)) := by
  have heval := check_file_changed_eval env fs db path m content blocks hstat hread hparse
  have hnot_of_none : check_file_changed env fs db path = .ok none →
      ¬ ∃ p cs, p ∈ find_python_files walk isFileEntry canon scope_paths ∧
        check_file_changed env fs db p = .ok (some (path, cs)) := by
    rintro hnone ⟨p, cs, hp, hc⟩
    have hq := check_file_changed_fst env fs db p path cs hc
    subst hq
    exact absurd (hnone.symm.trans hc) (by simp)
  rw [mem_modified_iff]
  cases hdb : db path with
  | none =>
    rw [hdb] at heval
    constructor
    · intro _; exact Or.inl rfl
    · intro _; exact hnot_of_none heval
  | some stored =>
    rw [hdb] at heval
    dsimp only at heval
    by_cases h1 : ratAbs (m - stored.mtime) < 1/1000
    · rw [if_pos h1] at heval
      constructor
      · intro _; exact Or.inr ⟨stored, rfl, Or.inl h1⟩
      · intro _; exact hnot_of_none heval
    · rw [if_neg h1] at heval
      by_cases h2 : (env.blake3_hex content == stored.file_hash) = true
      · rw [if_pos h2] at heval
        constructor
        · intro _; exact Or.inr ⟨stored, rfl, Or.inr (Or.inl (by simpa using h2))⟩
        · intro _; exact hnot_of_none heval
      · rw [if_neg h2] at heval
        by_cases h3 : (blocks.map (fun b => b.checksum) == stored.checksums) = true
        · rw [if_pos h3] at heval
          constructor
          · intro _; exact Or.inr ⟨stored, rfl, Or.inr (Or.inr (by simpa using h3))⟩
          · intro _; exact hnot_of_none heval
        · rw [if_neg h3] at heval
          constructor
          · intro hno
            exact absurd ⟨path, _, hmem, heval⟩ hno
          · rintro (hnone | ⟨s, hs, hP⟩)
            · exact absurd hnone (by simp)
            · injection hs with h
              subst h
              rcases hP with hP | hP | hP
              · exact absurd hP h1
              · exfalso; exact h2 (by simp [hP])
              · exfalso; exact h3 (by simp [hP])

/-- Witness for C4 at the concrete changed file of the C5 scenario. -/
theorem detect_changes_unchanged_iff_witness :
    ("/p/a.py" ∉ (detect_changes_internal c5Env c5Fs c5Db c4Walk c4IsFile c4Canon
        ["/p"]).modified ↔
      (c5Db "/p/a.py" = none ∨ ∃ stored : Fingerprint, c5Db "/p/a.py" = some stored ∧
        (ratAbs ((1 : ℚ) - stored.mtime) < 1/1000 ∨
         c5Env.blake3_hex "x = 1\n" = stored.file_hash ∨
         (((parse_module_internal "x = 1\n" [Stmt.otherStmt 1 1]).getD []).map
           (fun b => b.checksum)) = stored.checksums))) :=
  detect_changes_unchanged_iff c5Env c5Fs c5Db c4Walk c4IsFile c4Canon ["/p"]
    "/p/a.py" 1 "x = 1\n" ((parse_module_internal "x = 1\n" [Stmt.otherStmt 1 1]).getD [])
    (by decide) rfl rfl (by decide)
